import Mathlib

/-!
Verification of the MQTT 5 properties codec (`core_mqtt5_properties.c`).

The C code is shallowly embedded: byte buffers become total functions
`Nat → Nat` together with an explicit size (reads apply `% 256`, modelling
`uint8_t` memory; indices past `size` model adjacent memory, so an
unchecked read past the supplied size is visible as a dependence of the
result on `buf i` for `i ≥ size`).  The property collection
`MQTT5Properties_t` becomes a backing function plus `count`/`capacity`.
Each C function that mutates state through pointers is embedded in
state-passing style, returning the new state next to its C return value.
Machine integers are `Nat`; every place the C source casts (`(uint8_t)x`)
the embedding takes `% 256`, and the `(uint32_t)` cast of the properties
length takes `% 4294967296`.
-/

/-- MQTTStatus_t values used by this file (from core_mqtt_serializer.h). -/
inductive MQTTStatus where
  | MQTTSuccess
  | MQTTBadParameter
  | MQTTNoMemory
deriving DecidableEq, Repr

/-- MQTT5PropertyType_t is a C enum; a deserialized type tag can be any
byte, so the embedding uses `Nat` codes with the enum values as constants. -/
abbrev MQTT5PropertyType := Nat

def MQTT5_PROPERTY_PAYLOAD_FORMAT_INDICATOR : Nat := 0x01
def MQTT5_PROPERTY_MESSAGE_EXPIRY_INTERVAL : Nat := 0x02
def MQTT5_PROPERTY_CONTENT_TYPE : Nat := 0x03
def MQTT5_PROPERTY_RESPONSE_TOPIC : Nat := 0x08
def MQTT5_PROPERTY_CORRELATION_DATA : Nat := 0x09
def MQTT5_PROPERTY_SUBSCRIPTION_IDENTIFIER : Nat := 0x0B
def MQTT5_PROPERTY_SESSION_EXPIRY_INTERVAL : Nat := 0x11
def MQTT5_PROPERTY_ASSIGNED_CLIENT_IDENTIFIER : Nat := 0x12
def MQTT5_PROPERTY_SERVER_KEEP_ALIVE : Nat := 0x13
def MQTT5_PROPERTY_AUTHENTICATION_METHOD : Nat := 0x15
def MQTT5_PROPERTY_AUTHENTICATION_DATA : Nat := 0x16
def MQTT5_PROPERTY_REQUEST_PROBLEM_INFORMATION : Nat := 0x17
def MQTT5_PROPERTY_WILL_DELAY_INTERVAL : Nat := 0x18
def MQTT5_PROPERTY_REQUEST_RESPONSE_INFORMATION : Nat := 0x19
def MQTT5_PROPERTY_RESPONSE_INFORMATION : Nat := 0x1A
def MQTT5_PROPERTY_SERVER_REFERENCE : Nat := 0x1C
def MQTT5_PROPERTY_REASON_STRING : Nat := 0x1F
def MQTT5_PROPERTY_RECEIVE_MAXIMUM : Nat := 0x21
def MQTT5_PROPERTY_TOPIC_ALIAS_MAXIMUM : Nat := 0x22
def MQTT5_PROPERTY_TOPIC_ALIAS : Nat := 0x23
def MQTT5_PROPERTY_MAXIMUM_QOS : Nat := 0x24
def MQTT5_PROPERTY_RETAIN_AVAILABLE : Nat := 0x25
def MQTT5_PROPERTY_USER_PROPERTY : Nat := 0x26
def MQTT5_PROPERTY_MAXIMUM_PACKET_SIZE : Nat := 0x27
def MQTT5_PROPERTY_WILDCARD_SUBSCRIPTION_AVAILABLE : Nat := 0x28
def MQTT5_PROPERTY_SUBSCRIPTION_IDENTIFIER_AVAILABLE : Nat := 0x29
def MQTT5_PROPERTY_SHARED_SUBSCRIPTION_AVAILABLE : Nat := 0x2A

/-- Case groups of the switch statements in the C source.  `isByteType t`
holds exactly for the identifiers the C code treats as 1-byte values. -/
def isByteType (t : Nat) : Bool :=
  (t == MQTT5_PROPERTY_PAYLOAD_FORMAT_INDICATOR) ||
  (t == MQTT5_PROPERTY_REQUEST_PROBLEM_INFORMATION) ||
  (t == MQTT5_PROPERTY_REQUEST_RESPONSE_INFORMATION) ||
  (t == MQTT5_PROPERTY_MAXIMUM_QOS) ||
  (t == MQTT5_PROPERTY_RETAIN_AVAILABLE) ||
  (t == MQTT5_PROPERTY_WILDCARD_SUBSCRIPTION_AVAILABLE) ||
  (t == MQTT5_PROPERTY_SUBSCRIPTION_IDENTIFIER_AVAILABLE) ||
  (t == MQTT5_PROPERTY_SHARED_SUBSCRIPTION_AVAILABLE)

/-- Two Byte Integer cases of the C switch statements. -/
def isTwoByteType (t : Nat) : Bool :=
  (t == MQTT5_PROPERTY_SERVER_KEEP_ALIVE) ||
  (t == MQTT5_PROPERTY_RECEIVE_MAXIMUM) ||
  (t == MQTT5_PROPERTY_TOPIC_ALIAS_MAXIMUM) ||
  (t == MQTT5_PROPERTY_TOPIC_ALIAS)

/-- Four Byte Integer cases of the C switch statements. -/
def isFourByteType (t : Nat) : Bool :=
  (t == MQTT5_PROPERTY_MESSAGE_EXPIRY_INTERVAL) ||
  (t == MQTT5_PROPERTY_SESSION_EXPIRY_INTERVAL) ||
  (t == MQTT5_PROPERTY_WILL_DELAY_INTERVAL) ||
  (t == MQTT5_PROPERTY_MAXIMUM_PACKET_SIZE)

/-- UTF-8 string cases of the C switch statements. -/
def isUtf8Type (t : Nat) : Bool :=
  (t == MQTT5_PROPERTY_CONTENT_TYPE) ||
  (t == MQTT5_PROPERTY_RESPONSE_TOPIC) ||
  (t == MQTT5_PROPERTY_ASSIGNED_CLIENT_IDENTIFIER) ||
  (t == MQTT5_PROPERTY_AUTHENTICATION_METHOD) ||
  (t == MQTT5_PROPERTY_RESPONSE_INFORMATION) ||
  (t == MQTT5_PROPERTY_SERVER_REFERENCE) ||
  (t == MQTT5_PROPERTY_REASON_STRING)

/-- Binary data cases of the C switch statements. -/
def isBinaryType (t : Nat) : Bool :=
  (t == MQTT5_PROPERTY_CORRELATION_DATA) ||
  (t == MQTT5_PROPERTY_AUTHENTICATION_DATA)

/-- Identifiers handled by a non-default case of the deserializer switch. -/
def isKnownPropertyType (t : Nat) : Bool :=
  isByteType t || isTwoByteType t || isFourByteType t || isUtf8Type t ||
  isBinaryType t || (t == MQTT5_PROPERTY_USER_PROPERTY) ||
  (t == MQTT5_PROPERTY_SUBSCRIPTION_IDENTIFIER)

/-- The value union of MQTT5Property_t.  Borrowed pointer/length pairs
(strings, binary data, user-property key/value) are modelled by the byte
sequence they designate. -/
inductive MQTT5PropertyValue where
  | byte (b : Nat)
  | twoByteInteger (v : Nat)
  | fourByteInteger (v : Nat)
  | utf8String (s : List Nat)
  | binaryData (d : List Nat)
  | userProperty (key val : List Nat)
deriving DecidableEq, Repr

/-- Reading `value.byte` from the union.  When the stored member differs
the C result is an unspecified reinterpretation; the embedding returns a
fixed default, which no theorem below depends on (the shape invariant ties
every access to the stored member). -/
def MQTT5PropertyValue.byteVal : MQTT5PropertyValue → Nat
  | .byte b => b
  | _ => 0

/-- Reading `value.twoByteInteger` from the union (default on mismatch). -/
def MQTT5PropertyValue.twoVal : MQTT5PropertyValue → Nat
  | .twoByteInteger v => v
  | _ => 0

/-- Reading `value.fourByteInteger` from the union (default on mismatch).
SUBSCRIPTION_IDENTIFIER values are stored in this member by the C code. -/
def MQTT5PropertyValue.fourVal : MQTT5PropertyValue → Nat
  | .fourByteInteger v => v
  | _ => 0

/-- Reading `value.utf8String` (pString/length) from the union. -/
def MQTT5PropertyValue.utf8 : MQTT5PropertyValue → List Nat
  | .utf8String s => s
  | _ => []

/-- Reading `value.binaryData` (pData/length) from the union. -/
def MQTT5PropertyValue.bin : MQTT5PropertyValue → List Nat
  | .binaryData d => d
  | _ => []

/-- Reading `value.userProperty.pKey/keyLength` from the union. -/
def MQTT5PropertyValue.key : MQTT5PropertyValue → List Nat
  | .userProperty k _ => k
  | _ => []

/-- Reading `value.userProperty.pValue/valueLength` from the union. -/
def MQTT5PropertyValue.val : MQTT5PropertyValue → List Nat
  | .userProperty _ v => v
  | _ => []

/-- MQTT5Property_t (`type` holds an MQTT5PropertyType code). -/
structure MQTT5Property where
  type : Nat
  value : MQTT5PropertyValue
deriving DecidableEq, Repr

/-- MQTT5Properties_t: caller storage (`pProperties`, modelled as a total
function from slot index to slot content), `count` and `capacity`. -/
structure MQTT5Properties where
  pProperties : Nat → MQTT5Property
  count : Nat
  capacity : Nat

/-- The abstract contents of a collection: its first `count` slots in order. -/
def MQTT5Properties.toList (ps : MQTT5Properties) : List MQTT5Property :=
  (List.range ps.count).map ps.pProperties

/-- MQTT5_AddProperty (null-pointer branches are not representable in the
embedding; the remaining branches are translated verbatim). -/
def MQTT5_AddProperty (ps : MQTT5Properties) (p : MQTT5Property) :
    MQTTStatus × MQTT5Properties :=
  if ps.count ≥ ps.capacity then
    (.MQTTNoMemory, ps)
  else
    (.MQTTSuccess,
      { ps with
        pProperties := fun i => if i = ps.count then p else ps.pProperties i,
        count := ps.count + 1 })

/-- The search loop of MQTT5_GetProperty: scan slots `i, i+1, …, count-1`;
on a type match write the slot through the output pointer and stop with
success, otherwise leave the output record as it was and report
MQTTBadParameter (the initial value of `status` in the C code). -/
def getPropLoop (buf : Nat → MQTT5Property) (count : Nat) (t : Nat)
    (i : Nat) (out : MQTT5Property) : MQTTStatus × MQTT5Property :=
  if h : i < count then
    if (buf i).type = t then (.MQTTSuccess, buf i)
    else getPropLoop buf count t (i + 1) out
  else
    (.MQTTBadParameter, out)
termination_by count - i

/-- MQTT5_GetProperty in state-passing style: the result is the C return
status, the final contents of `*pProperty`, and the final contents of the
(const) collection, which the body never writes. -/
def MQTT5_GetProperty (ps : MQTT5Properties) (t : Nat) (out : MQTT5Property) :
    MQTTStatus × MQTT5Property × MQTT5Properties :=
  let r := getPropLoop ps.pProperties ps.count t 0 out
  (r.1, r.2, ps)

/-- Size charged for one property by MQTT5_GetPropertiesSize: 1 identifier
byte plus the switch's type-dependent value width.  Note the
SUBSCRIPTION_IDENTIFIER case charges a fixed 4 bytes ("Conservative
estimate" in the source), and the default case adds nothing. -/
def propertySize (p : MQTT5Property) : Nat :=
  1 +
  (if isByteType p.type then 1
   else if isTwoByteType p.type then 2
   else if isFourByteType p.type then 4
   else if isUtf8Type p.type then 2 + p.value.utf8.length
   else if isBinaryType p.type then 2 + p.value.bin.length
   else if p.type == MQTT5_PROPERTY_USER_PROPERTY then
     2 + p.value.key.length + 2 + p.value.val.length
   else if p.type == MQTT5_PROPERTY_SUBSCRIPTION_IDENTIFIER then 4
   else 0)

/-- MQTT5_GetPropertiesSize: the loop accumulating `totalSize` over the
first `count` entries. -/
def MQTT5_GetPropertiesSize (ps : MQTT5Properties) : Nat :=
  (ps.toList.map propertySize).sum

/-- encodeVariableByteInteger, as the list of bytes written (in write
order); `bytesWritten` is its length. -/
def encodeVariableByteInteger (value : Nat) : List Nat :=
  if h : value / 128 > 0 then
    (value % 128 + 128) :: encodeVariableByteInteger (value / 128)
  else
    [value % 128]
termination_by value

/-- The do/while loop of MQTT5_DecodeVariableByteInteger.  State:
`bytesRead`, `multiplier`, accumulated `value`.  Returns (bytesRead,
*pValue); a first component of 0 is the error signal, and *pValue keeps
whatever was accumulated, exactly as in the C code. -/
def decodeStep (buf : Nat → Nat) (bufferSize : Nat)
    (bytesRead multiplier value : Nat) : Nat × Nat :=
  if bytesRead ≥ bufferSize then
    (0, value)
  else
    let encodedByte := buf bytesRead % 256
    let value1 := value + encodedByte % 128 * multiplier
    if h : bytesRead + 1 > 4 then
      (0, value1)
    else if 128 ≤ encodedByte then
      decodeStep buf bufferSize (bytesRead + 1) (multiplier * 128) value1
    else
      (bytesRead + 1, value1)
termination_by 5 - bytesRead

/-- MQTT5_DecodeVariableByteInteger: returns (bytes consumed, *pValue);
0 bytes consumed signals an error. -/
def MQTT5_DecodeVariableByteInteger (buf : Nat → Nat) (bufferSize : Nat) :
    Nat × Nat :=
  decodeStep buf bufferSize 0 1 0

/-- A byte read `pBuffer[i]` (uint8 memory). -/
def readByte (buf : Nat → Nat) (i : Nat) : Nat := buf i % 256

/-- `len` consecutive byte reads starting at `start`. -/
def readBytes (buf : Nat → Nat) (start len : Nat) : List Nat :=
  (List.range len).map (fun j => readByte buf (start + j))

/-- View a concrete byte list as a memory: bytes past the end are 0. -/
def bufOf (l : List Nat) : Nat → Nat := fun i => l.getD i 0

/-- The value-writing switch of MQTT5_SerializeProperties: the bytes the
case for `t` writes after the identifier byte, or `none` for the default
case (which sets MQTTBadParameter).  Multi-byte integers are written
big-endian with `(uint8_t)` casts (`% 256`). -/
def serializeValue (t : Nat) (v : MQTT5PropertyValue) : Option (List Nat) :=
  if isByteType t then
    some [v.byteVal]
  else if isTwoByteType t then
    some [v.twoVal / 256 % 256, v.twoVal % 256]
  else if isFourByteType t then
    some [v.fourVal / 16777216 % 256, v.fourVal / 65536 % 256,
          v.fourVal / 256 % 256, v.fourVal % 256]
  else if isUtf8Type t then
    some ([v.utf8.length / 256 % 256, v.utf8.length % 256] ++ v.utf8)
  else if isBinaryType t then
    some ([v.bin.length / 256 % 256, v.bin.length % 256] ++ v.bin)
  else if t == MQTT5_PROPERTY_USER_PROPERTY then
    some ([v.key.length / 256 % 256, v.key.length % 256] ++ v.key ++
          [v.val.length / 256 % 256, v.val.length % 256] ++ v.val)
  else if t == MQTT5_PROPERTY_SUBSCRIPTION_IDENTIFIER then
    some (encodeVariableByteInteger v.fourVal)
  else
    none

/-- The per-property loop of MQTT5_SerializeProperties: each iteration
writes the identifier byte `(uint8_t) pProp->type`, then the value bytes;
the default switch case sets MQTTBadParameter and the loop stops (with the
identifier byte already written). -/
def serializeLoop : List MQTT5Property → MQTTStatus × List Nat
  | [] => (.MQTTSuccess, [])
  | p :: rest =>
    match serializeValue p.type p.value with
    | none => (.MQTTBadParameter, [p.type % 256])
    | some vb =>
      let r := serializeLoop rest
      (r.1, (p.type % 256 :: vb) ++ r.2)

/-- MQTT5_SerializeProperties: VBI-encode the (uint32-cast) properties
length, then run the property loop.  Result: (status, bytes written,
*pSize), where *pSize is the final `index`, i.e. the number of bytes
written, reported also on failure. -/
def MQTT5_SerializeProperties (ps : MQTT5Properties) :
    MQTTStatus × List Nat × Nat :=
  let propertiesLength := MQTT5_GetPropertiesSize ps
  let vbiBytes := encodeVariableByteInteger (propertiesLength % 4294967296)
  let r := serializeLoop ps.toList
  (r.1, vbiBytes ++ r.2, (vbiBytes ++ r.2).length)

/-- The value-reading switch of MQTT5_DeserializeProperties, reading at
`i` (the position just after the identifier byte).  Returns (status, the
parsed value, bytes consumed by the value).  None of the reads is checked
against `size`; only the SUBSCRIPTION_IDENTIFIER case passes
`size - index` to the VBI decoder, as in the source.  Big-endian ORs of
disjoint shifted bytes are written as sums. -/
def deserializeValue (t : Nat) (buf : Nat → Nat) (size i : Nat) :
    MQTTStatus × MQTT5PropertyValue × Nat :=
  if isByteType t then
    (.MQTTSuccess, .byte (readByte buf i), 1)
  else if isTwoByteType t then
    (.MQTTSuccess, .twoByteInteger (readByte buf i * 256 + readByte buf (i + 1)), 2)
  else if isFourByteType t then
    (.MQTTSuccess,
     .fourByteInteger (readByte buf i * 16777216 + readByte buf (i + 1) * 65536 +
                       readByte buf (i + 2) * 256 + readByte buf (i + 3)), 4)
  else if isUtf8Type t then
    let len := readByte buf i * 256 + readByte buf (i + 1)
    (.MQTTSuccess, .utf8String (readBytes buf (i + 2) len), 2 + len)
  else if isBinaryType t then
    let len := readByte buf i * 256 + readByte buf (i + 1)
    (.MQTTSuccess, .binaryData (readBytes buf (i + 2) len), 2 + len)
  else if t == MQTT5_PROPERTY_USER_PROPERTY then
    let kl := readByte buf i * 256 + readByte buf (i + 1)
    let k := readBytes buf (i + 2) kl
    let vl := readByte buf (i + 2 + kl) * 256 + readByte buf (i + 3 + kl)
    let v := readBytes buf (i + 4 + kl) vl
    (.MQTTSuccess, .userProperty k v, 2 + kl + 2 + vl)
  else if t == MQTT5_PROPERTY_SUBSCRIPTION_IDENTIFIER then
    let r := MQTT5_DecodeVariableByteInteger (fun j => buf (i + j)) (size - i)
    if r.1 = 0 then
      (.MQTTBadParameter, .fourByteInteger r.2, 0)
    else
      (.MQTTSuccess, .fourByteInteger r.2, r.1)
  else
    (.MQTTBadParameter, .byte 0, 0)

/-- The while loop of MQTT5_DeserializeProperties: while `index < size`
and `index < vbiLength + propertiesLength` (= `limit`) and no error, read
the identifier byte, read the value, append to the collection. -/
def deserLoop (buf : Nat → Nat) (size limit : Nat) (index : Nat)
    (ps : MQTT5Properties) : MQTTStatus × MQTT5Properties :=
  if h : index < size ∧ index < limit then
    let t := readByte buf index
    match deserializeValue t buf size (index + 1) with
    | (.MQTTSuccess, v, w) =>
      match MQTT5_AddProperty ps ⟨t, v⟩ with
      | (.MQTTSuccess, ps1) => deserLoop buf size limit (index + 1 + w) ps1
      | r => r
    | (st, _, _) => (st, ps)
  else
    (.MQTTSuccess, ps)
termination_by size - index
decreasing_by omega

/-- MQTT5_DeserializeProperties: decode the VBI length prefix (0 bytes
consumed means MQTTBadParameter), then run the property loop from
`index = vbiLength` with `limit = vbiLength + propertiesLength`. -/
def MQTT5_DeserializeProperties (ps : MQTT5Properties) (buf : Nat → Nat)
    (size : Nat) : MQTTStatus × MQTT5Properties :=
  let r := MQTT5_DecodeVariableByteInteger buf size
  if r.1 = 0 then
    (.MQTTBadParameter, ps)
  else
    deserLoop buf size (r.1 + r.2) r.1 ps

/-- The spec's length bounds for borrowed byte sequences: a uint16 length
field and uint8 contents. -/
def byteListOk (l : List Nat) : Bool :=
  decide (l.length ≤ 65535) && l.all (fun b => decide (b < 256))

/-- The spec's type/value-shape invariant (§3) together with the C-type
bounds of the stored union member: the stored value member is the one the
protocol mandates for the property type, integer members fit their C
types, and a SUBSCRIPTION_IDENTIFIER value is representable in 1-4 VBI
bytes (max 268435455). -/
def propertyWf (p : MQTT5Property) : Bool :=
  match p.value with
  | .byte b => isByteType p.type && decide (b < 256)
  | .twoByteInteger v => isTwoByteType p.type && decide (v < 65536)
  | .fourByteInteger v =>
      (isFourByteType p.type && decide (v < 4294967296)) ||
      ((p.type == MQTT5_PROPERTY_SUBSCRIPTION_IDENTIFIER) && decide (v ≤ 268435455))
  | .utf8String s => isUtf8Type p.type && byteListOk s
  | .binaryData d => isBinaryType p.type && byteListOk d
  | .userProperty k v =>
      (p.type == MQTT5_PROPERTY_USER_PROPERTY) && byteListOk k && byteListOk v

/-- The value bytes the serializer writes for one property (empty for the
default case, which writes none). -/
def valBytes (p : MQTT5Property) : List Nat :=
  (serializeValue p.type p.value).getD []

/-- The full byte image of a property list: identifier byte then value
bytes, per property, in order. -/
def chunkBytes : List MQTT5Property → List Nat
  | [] => []
  | p :: rest => (p.type % 256 :: valBytes p) ++ chunkBytes rest

/-- An empty collection over an 8-slot caller buffer. -/
def emptyProps : MQTT5Properties := ⟨fun _ => ⟨0, .byte 0⟩, 0, 8⟩

/-- An empty collection over a 2-slot caller buffer. -/
def emptyTwo : MQTT5Properties := ⟨fun _ => ⟨0, .byte 0⟩, 0, 2⟩

/-- One SUBSCRIPTION_IDENTIFIER property with value 5. -/
def subIdColl : MQTT5Properties :=
  ⟨fun _ => ⟨MQTT5_PROPERTY_SUBSCRIPTION_IDENTIFIER, .fourByteInteger 5⟩, 1, 1⟩

/-- One SESSION_EXPIRY_INTERVAL property with value 3600. -/
def sessionColl : MQTT5Properties :=
  ⟨fun _ => ⟨MQTT5_PROPERTY_SESSION_EXPIRY_INTERVAL, .fourByteInteger 3600⟩, 1, 1⟩

/-- A full collection: two MAXIMUM_QOS entries in a 2-slot buffer. -/
def fullColl : MQTT5Properties :=
  ⟨fun _ => ⟨MQTT5_PROPERTY_MAXIMUM_QOS, .byte 1⟩, 2, 2⟩

/-- One MAXIMUM_QOS entry in a 4-slot buffer. -/
def oneMaxQos : MQTT5Properties :=
  ⟨fun _ => ⟨MQTT5_PROPERTY_MAXIMUM_QOS, .byte 1⟩, 1, 4⟩

/-- Memory holding the two bytes 0x02 0x01 and zeros beyond. -/
def bufTwoA : Nat → Nat := bufOf [2, 1]

/-- Memory agreeing with `bufTwoA` on the two bytes inside the buffer but
holding 7 in the first byte past its end. -/
def bufTwoB : Nat → Nat := fun i => if i = 2 then 7 else bufOf [2, 1] i

/-- Output record used in the C9 witness. -/
def outRec : MQTT5Property := ⟨0, .byte 9⟩

/-- A collection whose encoded size (4096 * 65537 = 268439552 bytes)
exceeds the 268435455 maximum a VBI length prefix can carry: 4096
CONTENT_TYPE properties, each with a 65534-byte string. -/
def bigColl : MQTT5Properties :=
  ⟨fun _ => ⟨MQTT5_PROPERTY_CONTENT_TYPE, .utf8String (List.replicate 65534 0)⟩,
   4096, 4096⟩

/-- An empty collection with capacity for `bigColl`'s entries. -/
def bigEmpty : MQTT5Properties := ⟨fun _ => ⟨0, .byte 0⟩, 0, 4096⟩
lemma encode_lt (h : v < 128) : encodeVariableByteInteger v = [v] := by
  rw [encodeVariableByteInteger]
  have h0 : v / 128 = 0 := by omega
  simp [h0]
  omega

lemma encode_ge (h : 128 ≤ v) :
    encodeVariableByteInteger v = (v % 128 + 128) :: encodeVariableByteInteger (v / 128) := by
  rw [encodeVariableByteInteger]
  have h0 : v / 128 > 0 := by omega
  simp [h0]

lemma encode_len_pos (v : Nat) : 1 ≤ (encodeVariableByteInteger v).length := by
  rw [encodeVariableByteInteger]
  split <;> simp

lemma encode_all_lt (v : Nat) : ∀ b ∈ encodeVariableByteInteger v, b < 256 := by
  induction v using Nat.strong_induction_on with
  | _ v ih =>
    by_cases h : 128 ≤ v
    · rw [encode_ge h]
      intro b hb
      rcases List.mem_cons.mp hb with h1 | h1
      · omega
      · exact ih (v / 128) (by omega) b h1
    · rw [encode_lt (by omega)]
      intro b hb
      simp at hb
      omega

lemma encode_len_le : ∀ k v, 1 ≤ k → v < 128 ^ k → (encodeVariableByteInteger v).length ≤ k := by
  intro k
  induction k with
  | zero => omega
  | succ n ih =>
    intro v _ hv
    by_cases h : v < 128
    · rw [encode_lt h]; simp
    · rw [encode_ge (by omega)]
      simp only [List.length_cons]
      have : v / 128 < 128 ^ n := by
        have : 128 ^ (n + 1) = 128 ^ n * 128 := by ring
        omega
      have hn : 1 ≤ n := by
        by_contra hc
        have : n = 0 := by omega
        subst this
        simp at this ⊢
        omega
      have := ih (v / 128) hn (by assumption)
      omega

lemma decode_encode_aux :
    ∀ v (buf : Nat → Nat) (bufSz br mult acc : Nat),
    (∀ i, i < (encodeVariableByteInteger v).length →
       buf (br + i) % 256 = (encodeVariableByteInteger v).getD i 0) →
    br + (encodeVariableByteInteger v).length ≤ bufSz →
    br + (encodeVariableByteInteger v).length ≤ 4 →
    decodeStep buf bufSz br mult acc =
      (br + (encodeVariableByteInteger v).length, acc + v * mult) := by
  intro v
  induction v using Nat.strong_induction_on with
  | _ v ih =>
    intro buf bufSz br mult acc hagree hb h4
    by_cases h : 128 ≤ v
    · rw [encode_ge h] at hagree hb h4 ⊢
      have hlen1 : 1 ≤ (encodeVariableByteInteger (v / 128)).length := encode_len_pos _
      have hb0 : buf (br + 0) % 256 = v % 128 + 128 := by
        have := hagree 0 (by simp)
        simpa using this
      rw [decodeStep]
      have hbr : ¬ br ≥ bufSz := by simp only [List.length_cons] at hb; omega
      simp only [hbr, if_false]
      have hbyte : buf br % 256 = v % 128 + 128 := by simpa using hb0
      rw [hbyte]
      have h5 : ¬ br + 1 > 4 := by simp only [List.length_cons] at h4; omega
      rw [dif_neg h5]
      have hcont : 128 ≤ v % 128 + 128 := by omega
      rw [if_pos hcont]
      have heq : (v % 128 + 128) % 128 = v % 128 := by omega
      rw [heq]
      have ihres := ih (v / 128) (by omega) buf bufSz (br + 1) (mult * 128)
        (acc + v % 128 * mult)
        (by
          intro i hi
          have h2 := hagree (i + 1) (by simp; omega)
          rw [List.getD_cons_succ] at h2
          have h3 : br + (i + 1) = br + 1 + i := by omega
          rw [h3] at h2
          exact h2)
        (by simp only [List.length_cons] at hb; omega)
        (by simp only [List.length_cons] at h4; omega)
      rw [ihres]
      simp only [Prod.mk.injEq, List.length_cons]
      refine ⟨by omega, ?_⟩
      have h128 : v % 128 + v / 128 * 128 = v := Nat.mod_add_div' v 128
      calc acc + v % 128 * mult + v / 128 * (mult * 128)
          = acc + (v % 128 + v / 128 * 128) * mult := by ring
        _ = acc + v * mult := by rw [h128]
    · rw [encode_lt (by omega)] at hagree hb h4 ⊢
      simp only [List.length_cons, List.length_nil] at hb h4 ⊢
      have hb0 : buf (br + 0) % 256 = v := by
        have := hagree 0 (by simp)
        simpa using this
      rw [decodeStep]
      have hbr : ¬ br ≥ bufSz := by omega
      simp only [hbr, if_false]
      have hbyte : buf br % 256 = v := by simpa using hb0
      rw [hbyte]
      have h5 : ¬ br + 1 > 4 := by omega
      rw [dif_neg h5]
      have hcont : ¬ 128 ≤ v := by omega
      rw [if_neg hcont]
      have heq : v % 128 = v := by omega
      rw [heq]

lemma readBytes_length (buf : Nat → Nat) (s n : Nat) :
    (readBytes buf s n).length = n := by
  simp [readBytes]

lemma readBytes_zero (buf : Nat → Nat) (s : Nat) : readBytes buf s 0 = [] := by
  simp [readBytes]

lemma readBytes_succ (buf : Nat → Nat) (s n : Nat) :
    readBytes buf s (n + 1) = readByte buf s :: readBytes buf (s + 1) n := by
  simp only [readBytes, List.range_succ_eq_map, List.map_cons, List.map_map,
    Nat.add_zero]
  congr 1
  apply List.map_congr_left
  intro j hj
  simp only [Function.comp_apply, Nat.succ_eq_add_one]
  congr 1
  omega

lemma readBytes_append (buf : Nat → Nat) (s m n : Nat) :
    readBytes buf s (m + n) = readBytes buf s m ++ readBytes buf (s + m) n := by
  induction m generalizing s with
  | zero => simp [readBytes_zero]
  | succ k ih =>
    have h1 : k + 1 + n = (k + n) + 1 := by omega
    have h2 : s + 1 + k = s + (k + 1) := by omega
    rw [h1, readBytes_succ, readBytes_succ, ih, List.cons_append, h2]

lemma readBytes_getD (buf : Nat → Nat) (s n j : Nat) (h : j < n) :
    (readBytes buf s n).getD j 0 = buf (s + j) % 256 := by
  rw [List.getD_eq_getElem _ _ (by simp [readBytes_length]; omega)]
  simp [readBytes, readByte, h]

lemma readBytes_bufOf (l : List Nat) (s n : Nat) (hsn : s + n ≤ l.length)
    (hlt : ∀ b ∈ l, b < 256) :
    readBytes (bufOf l) s n = (l.drop s).take n := by
  apply List.ext_getElem
  · simp [readBytes_length]; omega
  · intro j h1 h2
    have hn : j < n := by
      have := readBytes_length (bufOf l) s n
      omega
    simp only [readBytes, List.getElem_map, List.getElem_range, readByte, bufOf]
    rw [List.getElem_take, List.getElem_drop]
    have hj : s + j < l.length := by omega
    rw [List.getD_eq_getElem _ _ hj]
    exact Nat.mod_eq_of_lt (hlt _ (List.getElem_mem _))

lemma list_eq_getD {l1 l2 : List Nat} (h : l1 = l2) (j : Nat) :
    l1.getD j 0 = l2.getD j 0 := by rw [h]

lemma encode_getD_lt (v j : Nat) (hj : j < (encodeVariableByteInteger v).length) :
    (encodeVariableByteInteger v).getD j 0 < 256 := by
  rw [List.getD_eq_getElem _ _ hj]
  exact encode_all_lt v _ (List.getElem_mem _)

lemma decode_bufOf_encode (v : Nat) (hv : v ≤ 268435455) :
    MQTT5_DecodeVariableByteInteger (bufOf (encodeVariableByteInteger v))
      (encodeVariableByteInteger v).length =
    ((encodeVariableByteInteger v).length, v) := by
  have hlen : (encodeVariableByteInteger v).length ≤ 4 :=
    encode_len_le 4 v (by omega) (by norm_num; omega)
  have h := decode_encode_aux v (bufOf (encodeVariableByteInteger v))
    (encodeVariableByteInteger v).length 0 1 0
    (by
      intro i hi
      simp only [Nat.zero_add, bufOf]
      rw [Nat.mod_eq_of_lt]
      exact encode_getD_lt v i hi)
    (by omega) (by omega)
  simpa [MQTT5_DecodeVariableByteInteger] using h

/-- Claim C5: for every value v in [0, 268435455], decoding the bytes
produced by the VBI encoder yields v together with a bytes-consumed count
equal to the encoded length, which is between 1 and 4; the boundary
encodings of 127, 128, 16383 and 16384 are as stated. -/
theorem C5_vbi_roundtrip (v : Nat) (hv : v ≤ 268435455) :
    MQTT5_DecodeVariableByteInteger (bufOf (encodeVariableByteInteger v))
      (encodeVariableByteInteger v).length =
      ((encodeVariableByteInteger v).length, v) ∧
    1 ≤ (encodeVariableByteInteger v).length ∧
    (encodeVariableByteInteger v).length ≤ 4 ∧
    encodeVariableByteInteger 127 = [0x7F] ∧
    encodeVariableByteInteger 128 = [0x80, 0x01] ∧
    (encodeVariableByteInteger 16383).length = 2 ∧
    (encodeVariableByteInteger 16384).length = 3 := by
  refine ⟨decode_bufOf_encode v hv, encode_len_pos v,
    encode_len_le 4 v (by omega) (by norm_num; omega), ?_, ?_, ?_, ?_⟩
  · simp [encodeVariableByteInteger]
  · simp [encodeVariableByteInteger]
  · simp [encodeVariableByteInteger]
  · simp [encodeVariableByteInteger]

theorem C5_vbi_roundtrip_witness :
    16384 ≤ 268435455 ∧
    MQTT5_DecodeVariableByteInteger (bufOf (encodeVariableByteInteger 16384))
      (encodeVariableByteInteger 16384).length =
      ((encodeVariableByteInteger 16384).length, 16384) :=
  ⟨by norm_num, (C5_vbi_roundtrip 16384 (by norm_num)).1⟩

lemma decodeStep_no_terminator (buf : Nat → Nat) (bufferSize : Nat)
    (h : ∀ i, i < bufferSize → i < 4 → 128 ≤ buf i % 256) :
    ∀ n br mult acc, bufferSize - br ≤ n → br ≤ 4 →
    (decodeStep buf bufferSize br mult acc).1 = 0 := by
  intro n
  induction n with
  | zero =>
    intro br mult acc hn hbr
    rw [decodeStep]
    have : br ≥ bufferSize := by omega
    simp [this]
  | succ k ih =>
    intro br mult acc hn hbr
    rw [decodeStep]
    by_cases hsz : br ≥ bufferSize
    · simp [hsz]
    · simp only [hsz, if_false]
      by_cases h4 : br + 1 > 4
      · rw [dif_pos h4]
      · rw [dif_neg h4]
        have hcont : 128 ≤ buf br % 256 := h br (by omega) (by omega)
        rw [if_pos hcont]
        exact ih (br + 1) (mult * 128) _ (by omega) (by omega)

/-- Claim C6: whenever every byte the decoder can inspect (the first
min(bufferSize, 4) bytes) carries the continuation bit, the decode fails
with the definite error signal (0 bytes consumed): this covers both input
exhausted before a terminating byte and more than 4 bytes consumed. -/
theorem C6_vbi_malformed (buf : Nat → Nat) (bufferSize : Nat)
    (h : ∀ i, i < bufferSize → i < 4 → 128 ≤ buf i % 256) :
    (MQTT5_DecodeVariableByteInteger buf bufferSize).1 = 0 :=
  decodeStep_no_terminator buf bufferSize h bufferSize 0 1 0 (by omega) (by omega)

theorem C6_vbi_malformed_witness :
    (∀ i, i < 5 → i < 4 → 128 ≤ bufOf [0x80, 0x80, 0x80, 0x80, 0x80] i % 256) ∧
    (MQTT5_DecodeVariableByteInteger (bufOf [0x80, 0x80, 0x80, 0x80, 0x80]) 5).1 = 0 :=
  ⟨by decide, C6_vbi_malformed (bufOf [0x80, 0x80, 0x80, 0x80, 0x80]) 5 (by decide)⟩

lemma isByteType_iff (t : Nat) :
    isByteType t = true ↔
    (t = 1 ∨ t = 23 ∨ t = 25 ∨ t = 36 ∨ t = 37 ∨ t = 40 ∨ t = 41 ∨ t = 42) := by
  simp [isByteType, MQTT5_PROPERTY_PAYLOAD_FORMAT_INDICATOR,
    MQTT5_PROPERTY_REQUEST_PROBLEM_INFORMATION,
    MQTT5_PROPERTY_REQUEST_RESPONSE_INFORMATION, MQTT5_PROPERTY_MAXIMUM_QOS,
    MQTT5_PROPERTY_RETAIN_AVAILABLE,
    MQTT5_PROPERTY_WILDCARD_SUBSCRIPTION_AVAILABLE,
    MQTT5_PROPERTY_SUBSCRIPTION_IDENTIFIER_AVAILABLE,
    MQTT5_PROPERTY_SHARED_SUBSCRIPTION_AVAILABLE, or_assoc]

lemma isTwoByteType_iff (t : Nat) :
    isTwoByteType t = true ↔ (t = 19 ∨ t = 33 ∨ t = 34 ∨ t = 35) := by
  simp [isTwoByteType, MQTT5_PROPERTY_SERVER_KEEP_ALIVE,
    MQTT5_PROPERTY_RECEIVE_MAXIMUM, MQTT5_PROPERTY_TOPIC_ALIAS_MAXIMUM,
    MQTT5_PROPERTY_TOPIC_ALIAS, or_assoc]

lemma isFourByteType_iff (t : Nat) :
    isFourByteType t = true ↔ (t = 2 ∨ t = 17 ∨ t = 24 ∨ t = 39) := by
  simp [isFourByteType, MQTT5_PROPERTY_MESSAGE_EXPIRY_INTERVAL,
    MQTT5_PROPERTY_SESSION_EXPIRY_INTERVAL, MQTT5_PROPERTY_WILL_DELAY_INTERVAL,
    MQTT5_PROPERTY_MAXIMUM_PACKET_SIZE, or_assoc]

lemma isUtf8Type_iff (t : Nat) :
    isUtf8Type t = true ↔
    (t = 3 ∨ t = 8 ∨ t = 18 ∨ t = 21 ∨ t = 26 ∨ t = 28 ∨ t = 31) := by
  simp [isUtf8Type, MQTT5_PROPERTY_CONTENT_TYPE, MQTT5_PROPERTY_RESPONSE_TOPIC,
    MQTT5_PROPERTY_ASSIGNED_CLIENT_IDENTIFIER,
    MQTT5_PROPERTY_AUTHENTICATION_METHOD, MQTT5_PROPERTY_RESPONSE_INFORMATION,
    MQTT5_PROPERTY_SERVER_REFERENCE, MQTT5_PROPERTY_REASON_STRING, or_assoc]

lemma isBinaryType_iff (t : Nat) :
    isBinaryType t = true ↔ (t = 9 ∨ t = 22) := by
  simp [isBinaryType, MQTT5_PROPERTY_CORRELATION_DATA,
    MQTT5_PROPERTY_AUTHENTICATION_DATA]

lemma isByteType_false (t : Nat)
    (h : ¬ (t = 1 ∨ t = 23 ∨ t = 25 ∨ t = 36 ∨ t = 37 ∨ t = 40 ∨ t = 41 ∨ t = 42)) :
    isByteType t = false := by
  rw [Bool.eq_false_iff, Ne, isByteType_iff]; exact h

lemma isTwoByteType_false (t : Nat) (h : ¬ (t = 19 ∨ t = 33 ∨ t = 34 ∨ t = 35)) :
    isTwoByteType t = false := by
  rw [Bool.eq_false_iff, Ne, isTwoByteType_iff]; exact h

lemma isFourByteType_false (t : Nat) (h : ¬ (t = 2 ∨ t = 17 ∨ t = 24 ∨ t = 39)) :
    isFourByteType t = false := by
  rw [Bool.eq_false_iff, Ne, isFourByteType_iff]; exact h

lemma isUtf8Type_false (t : Nat)
    (h : ¬ (t = 3 ∨ t = 8 ∨ t = 18 ∨ t = 21 ∨ t = 26 ∨ t = 28 ∨ t = 31)) :
    isUtf8Type t = false := by
  rw [Bool.eq_false_iff, Ne, isUtf8Type_iff]; exact h

lemma isBinaryType_false (t : Nat) (h : ¬ (t = 9 ∨ t = 22)) :
    isBinaryType t = false := by
  rw [Bool.eq_false_iff, Ne, isBinaryType_iff]; exact h

lemma readBytes_one (buf : Nat → Nat) (s : Nat) :
    readBytes buf s 1 = [readByte buf s] := by
  have h : (1 : Nat) = 0 + 1 := rfl
  rw [h, readBytes_succ, readBytes_zero]

lemma readBytes_two (buf : Nat → Nat) (s : Nat) :
    readBytes buf s 2 = [readByte buf s, readByte buf (s + 1)] := by
  have h : (2 : Nat) = 1 + 1 := rfl
  rw [h, readBytes_succ, readBytes_one]

lemma readBytes_four (buf : Nat → Nat) (s : Nat) :
    readBytes buf s 4 =
      [readByte buf s, readByte buf (s + 1), readByte buf (s + 2),
       readByte buf (s + 3)] := by
  have h : (4 : Nat) = 3 + 1 := rfl
  have h3 : (3 : Nat) = 2 + 1 := rfl
  rw [h, readBytes_succ, h3, readBytes_succ, readBytes_two]

lemma serializeValue_byte (t b : Nat) (h : isByteType t = true) :
    serializeValue t (.byte b) = some [b] := by
  simp [serializeValue, h, MQTT5PropertyValue.byteVal]

lemma serializeValue_twoByte (t v : Nat) (h : isTwoByteType t = true) :
    serializeValue t (.twoByteInteger v) = some [v / 256 % 256, v % 256] := by
  have hb : isByteType t = false :=
    isByteType_false t (by rw [isTwoByteType_iff] at h; omega)
  simp [serializeValue, h, hb, MQTT5PropertyValue.twoVal]

lemma serializeValue_fourByte (t v : Nat) (h : isFourByteType t = true) :
    serializeValue t (.fourByteInteger v) =
      some [v / 16777216 % 256, v / 65536 % 256, v / 256 % 256, v % 256] := by
  have hn := (isFourByteType_iff t).mp h
  have hb : isByteType t = false := isByteType_false t (by omega)
  have h2 : isTwoByteType t = false := isTwoByteType_false t (by omega)
  simp [serializeValue, h, hb, h2, MQTT5PropertyValue.fourVal]

lemma serializeValue_utf8 (t : Nat) (s : List Nat) (h : isUtf8Type t = true) :
    serializeValue t (.utf8String s) =
      some ([s.length / 256 % 256, s.length % 256] ++ s) := by
  have hn := (isUtf8Type_iff t).mp h
  have hb : isByteType t = false := isByteType_false t (by omega)
  have h2 : isTwoByteType t = false := isTwoByteType_false t (by omega)
  have h4 : isFourByteType t = false := isFourByteType_false t (by omega)
  simp [serializeValue, h, hb, h2, h4, MQTT5PropertyValue.utf8]

lemma serializeValue_binary (t : Nat) (d : List Nat) (h : isBinaryType t = true) :
    serializeValue t (.binaryData d) =
      some ([d.length / 256 % 256, d.length % 256] ++ d) := by
  have hn := (isBinaryType_iff t).mp h
  have hb : isByteType t = false := isByteType_false t (by omega)
  have h2 : isTwoByteType t = false := isTwoByteType_false t (by omega)
  have h4 : isFourByteType t = false := isFourByteType_false t (by omega)
  have h8 : isUtf8Type t = false := isUtf8Type_false t (by omega)
  simp [serializeValue, h, hb, h2, h4, h8, MQTT5PropertyValue.bin]

lemma serializeValue_user (k v : List Nat) :
    serializeValue MQTT5_PROPERTY_USER_PROPERTY (.userProperty k v) =
      some ([k.length / 256 % 256, k.length % 256] ++ k ++
            [v.length / 256 % 256, v.length % 256] ++ v) := by
  simp [serializeValue,
    (by decide : isByteType MQTT5_PROPERTY_USER_PROPERTY = false),
    (by decide : isTwoByteType MQTT5_PROPERTY_USER_PROPERTY = false),
    (by decide : isFourByteType MQTT5_PROPERTY_USER_PROPERTY = false),
    (by decide : isUtf8Type MQTT5_PROPERTY_USER_PROPERTY = false),
    (by decide : isBinaryType MQTT5_PROPERTY_USER_PROPERTY = false),
    MQTT5PropertyValue.key, MQTT5PropertyValue.val]

lemma serializeValue_subId (v : Nat) :
    serializeValue MQTT5_PROPERTY_SUBSCRIPTION_IDENTIFIER (.fourByteInteger v) =
      some (encodeVariableByteInteger v) := by
  simp [serializeValue,
    (by decide : isByteType MQTT5_PROPERTY_SUBSCRIPTION_IDENTIFIER = false),
    (by decide : isTwoByteType MQTT5_PROPERTY_SUBSCRIPTION_IDENTIFIER = false),
    (by decide : isFourByteType MQTT5_PROPERTY_SUBSCRIPTION_IDENTIFIER = false),
    (by decide : isUtf8Type MQTT5_PROPERTY_SUBSCRIPTION_IDENTIFIER = false),
    (by decide : isBinaryType MQTT5_PROPERTY_SUBSCRIPTION_IDENTIFIER = false),
    (by decide :
      ¬ (MQTT5_PROPERTY_SUBSCRIPTION_IDENTIFIER = MQTT5_PROPERTY_USER_PROPERTY)),
    MQTT5PropertyValue.fourVal]

lemma serializeValue_wf {p : MQTT5Property} (h : propertyWf p = true) :
    serializeValue p.type p.value = some (valBytes p) := by
  rcases p with ⟨t, v⟩
  unfold propertyWf at h
  cases v <;>
    simp only [Bool.and_eq_true, Bool.or_eq_true, beq_iff_eq,
      decide_eq_true_eq] at h
  case byte b =>
    rw [show (⟨t, .byte b⟩ : MQTT5Property).type = t from rfl,
      show (⟨t, .byte b⟩ : MQTT5Property).value = .byte b from rfl,
      serializeValue_byte t b h.1, valBytes,
      serializeValue_byte t b h.1]
    rfl
  case twoByteInteger v =>
    rw [show (⟨t, .twoByteInteger v⟩ : MQTT5Property).type = t from rfl,
      show (⟨t, .twoByteInteger v⟩ : MQTT5Property).value = .twoByteInteger v from rfl,
      serializeValue_twoByte t v h.1, valBytes,
      serializeValue_twoByte t v h.1]
    rfl
  case fourByteInteger v =>
    rcases h with ⟨h1, -⟩ | ⟨h1, -⟩
    · rw [show (⟨t, .fourByteInteger v⟩ : MQTT5Property).type = t from rfl,
        show (⟨t, .fourByteInteger v⟩ : MQTT5Property).value = .fourByteInteger v from rfl,
        serializeValue_fourByte t v h1, valBytes,
        serializeValue_fourByte t v h1]
      rfl
    · subst h1
      rw [show (⟨MQTT5_PROPERTY_SUBSCRIPTION_IDENTIFIER, .fourByteInteger v⟩ :
            MQTT5Property).type = MQTT5_PROPERTY_SUBSCRIPTION_IDENTIFIER from rfl,
        show (⟨MQTT5_PROPERTY_SUBSCRIPTION_IDENTIFIER, .fourByteInteger v⟩ :
            MQTT5Property).value = .fourByteInteger v from rfl,
        serializeValue_subId v, valBytes, serializeValue_subId v]
      rfl
  case utf8String s =>
    rw [show (⟨t, .utf8String s⟩ : MQTT5Property).type = t from rfl,
      show (⟨t, .utf8String s⟩ : MQTT5Property).value = .utf8String s from rfl,
      serializeValue_utf8 t s h.1, valBytes, serializeValue_utf8 t s h.1]
    rfl
  case binaryData d =>
    rw [show (⟨t, .binaryData d⟩ : MQTT5Property).type = t from rfl,
      show (⟨t, .binaryData d⟩ : MQTT5Property).value = .binaryData d from rfl,
      serializeValue_binary t d h.1, valBytes, serializeValue_binary t d h.1]
    rfl
  case userProperty k v =>
    rcases h with ⟨⟨h1, -⟩, -⟩
    subst h1
    rw [show (⟨MQTT5_PROPERTY_USER_PROPERTY, .userProperty k v⟩ :
          MQTT5Property).type = MQTT5_PROPERTY_USER_PROPERTY from rfl,
      show (⟨MQTT5_PROPERTY_USER_PROPERTY, .userProperty k v⟩ :
          MQTT5Property).value = .userProperty k v from rfl,
      serializeValue_user k v, valBytes, serializeValue_user k v]
    rfl

lemma valBytes_wf {p : MQTT5Property} (h : propertyWf p = true) :
    serializeValue p.type p.value = some (valBytes p) := serializeValue_wf h

lemma byteListOk_len {l : List Nat} (h : byteListOk l = true) :
    l.length ≤ 65535 := by
  simp only [byteListOk, Bool.and_eq_true, decide_eq_true_eq] at h
  exact h.1

lemma byteListOk_mem {l : List Nat} (h : byteListOk l = true) :
    ∀ b ∈ l, b < 256 := by
  simp only [byteListOk, Bool.and_eq_true, List.all_eq_true,
    decide_eq_true_eq] at h
  exact h.2

/-- Parsing the value bytes the serializer wrote recovers the property's
value and consumes exactly those bytes. -/
lemma deserializeValue_of_serialized (p : MQTT5Property)
    (h : propertyWf p = true) (buf : Nat → Nat) (size i : Nat)
    (hread : readBytes buf i (valBytes p).length = valBytes p)
    (hsz : i + (valBytes p).length ≤ size) :
    deserializeValue p.type buf size i =
      (.MQTTSuccess, p.value, (valBytes p).length) := by
  rcases p with ⟨t, v⟩
  unfold propertyWf at h
  cases v <;>
    simp only [Bool.and_eq_true, Bool.or_eq_true, beq_iff_eq,
      decide_eq_true_eq] at h
  case byte b =>
    have hvb : valBytes ⟨t, .byte b⟩ = [b] := by
      simp [valBytes, serializeValue_byte t b h.1]
    rw [hvb] at hread hsz ⊢
    simp only [List.length_cons, List.length_nil] at hread hsz ⊢
    rw [readBytes_one] at hread
    have hb : readByte buf i = b := by simpa using hread
    show deserializeValue t buf size i = _
    rw [deserializeValue, if_pos h.1, hb]
  case twoByteInteger v =>
    have hvb : valBytes ⟨t, .twoByteInteger v⟩ = [v / 256 % 256, v % 256] := by
      simp [valBytes, serializeValue_twoByte t v h.1]
    rw [hvb] at hread hsz ⊢
    simp only [List.length_cons, List.length_nil] at hread hsz ⊢
    rw [readBytes_two] at hread
    have h1 : readByte buf i = v / 256 % 256 := by
      have := congrArg (fun l => l.getD 0 0) hread; simpa using this
    have h2 : readByte buf (i + 1) = v % 256 := by
      have := congrArg (fun l => l.getD 1 0) hread; simpa using this
    have hb : isByteType t = false :=
      isByteType_false t (by rw [isTwoByteType_iff] at h; omega)
    show deserializeValue t buf size i = _
    rw [deserializeValue, if_neg (by simp [hb]), if_pos h.1, h1, h2]
    have : v / 256 % 256 * 256 + v % 256 = v := by omega
    rw [this]
  case fourByteInteger v =>
    rcases h with ⟨h1, hlt⟩ | ⟨h1, hle⟩
    · have hvb : valBytes ⟨t, .fourByteInteger v⟩ =
          [v / 16777216 % 256, v / 65536 % 256, v / 256 % 256, v % 256] := by
        simp [valBytes, serializeValue_fourByte t v h1]
      rw [hvb] at hread hsz ⊢
      simp only [List.length_cons, List.length_nil] at hread hsz ⊢
      rw [readBytes_four] at hread
      have e0 : readByte buf i = v / 16777216 % 256 := by
        have := congrArg (fun l => l.getD 0 0) hread; simpa using this
      have e1 : readByte buf (i + 1) = v / 65536 % 256 := by
        have := congrArg (fun l => l.getD 1 0) hread; simpa using this
      have e2 : readByte buf (i + 2) = v / 256 % 256 := by
        have := congrArg (fun l => l.getD 2 0) hread; simpa using this
      have e3 : readByte buf (i + 3) = v % 256 := by
        have := congrArg (fun l => l.getD 3 0) hread; simpa using this
      have hn := (isFourByteType_iff t).mp h1
      have hb : isByteType t = false := isByteType_false t (by omega)
      have h2 : isTwoByteType t = false := isTwoByteType_false t (by omega)
      show deserializeValue t buf size i = _
      rw [deserializeValue, if_neg (by simp [hb]), if_neg (by simp [h2]),
        if_pos h1, e0, e1, e2, e3]
      have : v / 16777216 % 256 * 16777216 + v / 65536 % 256 * 65536 +
          v / 256 % 256 * 256 + v % 256 = v := by omega
      rw [this]
    · subst h1
      have hvb : valBytes ⟨MQTT5_PROPERTY_SUBSCRIPTION_IDENTIFIER,
          .fourByteInteger v⟩ = encodeVariableByteInteger v := by
        simp [valBytes, serializeValue_subId v]
      rw [hvb] at hread hsz ⊢
      have hlen : (encodeVariableByteInteger v).length ≤ 4 :=
        encode_len_le 4 v (by omega) (by norm_num; omega)
      have hdec := decode_encode_aux v (fun j => buf (i + j)) (size - i) 0 1 0
        (by
          intro j hj
          have hgd := readBytes_getD buf i (encodeVariableByteInteger v).length j hj
          rw [hread] at hgd
          simp only [Nat.zero_add]
          exact hgd.symm)
        (by omega) (by omega)
      have hpos : 1 ≤ (encodeVariableByteInteger v).length := encode_len_pos v
      show deserializeValue MQTT5_PROPERTY_SUBSCRIPTION_IDENTIFIER buf size i =
        (.MQTTSuccess, .fourByteInteger v, (encodeVariableByteInteger v).length)
      rw [deserializeValue,
        if_neg (by decide), if_neg (by decide), if_neg (by decide),
        if_neg (by decide), if_neg (by decide), if_neg (by decide),
        if_pos (by decide)]
      simp only [MQTT5_DecodeVariableByteInteger] at hdec ⊢
      rw [hdec]
      simp only [Nat.zero_add, Nat.mul_one]
      rw [if_neg (by omega)]
  case utf8String s =>
    rcases h with ⟨h1, hok⟩
    have hvb : valBytes ⟨t, .utf8String s⟩ =
        [s.length / 256 % 256, s.length % 256] ++ s := by
      simp [valBytes, serializeValue_utf8 t s h1]
    rw [hvb] at hread hsz ⊢
    have hlt : ([s.length / 256 % 256, s.length % 256] ++ s).length =
        2 + s.length := by simp; omega
    rw [hlt] at hread hsz ⊢
    rw [readBytes_append buf i 2 s.length, readBytes_two] at hread
    have hsp := List.append_inj hread (by simp [readBytes_length])
    have e0 : readByte buf i = s.length / 256 % 256 := by
      have := congrArg (fun l => l.getD 0 0) hsp.1; simpa using this
    have e1 : readByte buf (i + 1) = s.length % 256 := by
      have := congrArg (fun l => l.getD 1 0) hsp.1; simpa using this
    have e2 : readBytes buf (i + 2) s.length = s := hsp.2
    have hL : s.length ≤ 65535 := byteListOk_len hok
    have hn := (isUtf8Type_iff t).mp h1
    have hb : isByteType t = false := isByteType_false t (by omega)
    have h2 : isTwoByteType t = false := isTwoByteType_false t (by omega)
    have h4 : isFourByteType t = false := isFourByteType_false t (by omega)
    show deserializeValue t buf size i =
      (.MQTTSuccess, .utf8String s, 2 + s.length)
    rw [deserializeValue, if_neg (by simp [hb]), if_neg (by simp [h2]),
      if_neg (by simp [h4]), if_pos h1, e0, e1]
    have hLen : s.length / 256 % 256 * 256 + s.length % 256 = s.length := by
      omega
    rw [hLen]
    simp only [e2]
  case binaryData d =>
    rcases h with ⟨h1, hok⟩
    have hvb : valBytes ⟨t, .binaryData d⟩ =
        [d.length / 256 % 256, d.length % 256] ++ d := by
      simp [valBytes, serializeValue_binary t d h1]
    rw [hvb] at hread hsz ⊢
    have hlt : ([d.length / 256 % 256, d.length % 256] ++ d).length =
        2 + d.length := by simp; omega
    rw [hlt] at hread hsz ⊢
    rw [readBytes_append buf i 2 d.length, readBytes_two] at hread
    have hsp := List.append_inj hread (by simp [readBytes_length])
    have e0 : readByte buf i = d.length / 256 % 256 := by
      have := congrArg (fun l => l.getD 0 0) hsp.1; simpa using this
    have e1 : readByte buf (i + 1) = d.length % 256 := by
      have := congrArg (fun l => l.getD 1 0) hsp.1; simpa using this
    have e2 : readBytes buf (i + 2) d.length = d := hsp.2
    have hL : d.length ≤ 65535 := byteListOk_len hok
    have hn := (isBinaryType_iff t).mp h1
    have hb : isByteType t = false := isByteType_false t (by omega)
    have h2 : isTwoByteType t = false := isTwoByteType_false t (by omega)
    have h4 : isFourByteType t = false := isFourByteType_false t (by omega)
    have h8 : isUtf8Type t = false := isUtf8Type_false t (by omega)
    show deserializeValue t buf size i =
      (.MQTTSuccess, .binaryData d, 2 + d.length)
    rw [deserializeValue, if_neg (by simp [hb]), if_neg (by simp [h2]),
      if_neg (by simp [h4]), if_neg (by simp [h8]), if_pos h1, e0, e1]
    have hLen : d.length / 256 % 256 * 256 + d.length % 256 = d.length := by
      omega
    rw [hLen]
    simp only [e2]
  case userProperty k v =>
    rcases h with ⟨⟨h1, hokk⟩, hokv⟩
    subst h1
    have hvb : valBytes ⟨MQTT5_PROPERTY_USER_PROPERTY, .userProperty k v⟩ =
        [k.length / 256 % 256, k.length % 256] ++ k ++
        [v.length / 256 % 256, v.length % 256] ++ v := by
      simp [valBytes, serializeValue_user k v]
    rw [hvb] at hread hsz ⊢
    rw [List.append_assoc, List.append_assoc] at hread hsz ⊢
    rw [show ([k.length / 256 % 256, k.length % 256] ++
        (k ++ ([v.length / 256 % 256, v.length % 256] ++ v))).length =
        2 + (k.length + (2 + v.length)) from by simp; omega] at hread hsz ⊢
    rw [readBytes_append buf i 2 (k.length + (2 + v.length)),
      readBytes_two] at hread
    have hsp := List.append_inj hread (by simp [readBytes_length])
    have e0 : readByte buf i = k.length / 256 % 256 := by
      have := congrArg (fun l => l.getD 0 0) hsp.1; simpa using this
    have e1 : readByte buf (i + 1) = k.length % 256 := by
      have := congrArg (fun l => l.getD 1 0) hsp.1; simpa using this
    have hsp2 := hsp.2
    rw [readBytes_append buf (i + 2) k.length (2 + v.length)] at hsp2
    have hsq := List.append_inj hsp2 (by simp [readBytes_length])
    have ek : readBytes buf (i + 2) k.length = k := hsq.1
    have hsq2 := hsq.2
    rw [readBytes_append buf (i + 2 + k.length) 2 v.length,
      readBytes_two] at hsq2
    have hsr := List.append_inj hsq2 (by simp [readBytes_length])
    have f0 : readByte buf (i + 2 + k.length) = v.length / 256 % 256 := by
      have := congrArg (fun l => l.getD 0 0) hsr.1; simpa using this
    have f1 : readByte buf (i + 3 + k.length) = v.length % 256 := by
      have hq := congrArg (fun l => l.getD 1 0) hsr.1
      have hpos : i + 2 + k.length + 1 = i + 3 + k.length := by omega
      rw [hpos] at hq
      simpa using hq
    have ev : readBytes buf (i + 4 + k.length) v.length = v := by
      have hpos : i + 2 + k.length + 2 = i + 4 + k.length := by omega
      rw [hpos] at hsr
      exact hsr.2
    have hLk : k.length ≤ 65535 := byteListOk_len hokk
    have hLv : v.length ≤ 65535 := byteListOk_len hokv
    show deserializeValue MQTT5_PROPERTY_USER_PROPERTY buf size i =
      (.MQTTSuccess, .userProperty k v, 2 + (k.length + (2 + v.length)))
    rw [deserializeValue, if_neg (by decide), if_neg (by decide),
      if_neg (by decide), if_neg (by decide), if_neg (by decide),
      if_pos (by decide), e0, e1]
    have hKL : k.length / 256 % 256 * 256 + k.length % 256 = k.length := by
      omega
    rw [hKL]
    simp only [ek]
    rw [f0, f1]
    have hVL : v.length / 256 % 256 * 256 + v.length % 256 = v.length := by
      omega
    rw [hVL, ev]
    simp only [Prod.mk.injEq]
    exact ⟨trivial, trivial, by omega⟩

lemma type_lt_of_wf {p : MQTT5Property} (h : propertyWf p = true) :
    p.type < 256 := by
  rcases p with ⟨t, v⟩
  unfold propertyWf at h
  cases v <;>
    simp only [Bool.and_eq_true, Bool.or_eq_true, beq_iff_eq,
      decide_eq_true_eq] at h
  case byte b =>
    have := (isByteType_iff t).mp h.1; show t < 256; omega
  case twoByteInteger v =>
    have := (isTwoByteType_iff t).mp h.1; show t < 256; omega
  case fourByteInteger v =>
    rcases h with ⟨h1, -⟩ | ⟨h1, -⟩
    · have := (isFourByteType_iff t).mp h1; show t < 256; omega
    · subst h1; show MQTT5_PROPERTY_SUBSCRIPTION_IDENTIFIER < 256; decide
  case utf8String s =>
    have := (isUtf8Type_iff t).mp h.1; show t < 256; omega
  case binaryData d =>
    have := (isBinaryType_iff t).mp h.1; show t < 256; omega
  case userProperty k v =>
    rcases h with ⟨⟨h1, -⟩, -⟩; subst h1
    show MQTT5_PROPERTY_USER_PROPERTY < 256; decide

lemma chunk_le_size {p : MQTT5Property} (h : propertyWf p = true) :
    1 + (valBytes p).length ≤ propertySize p := by
  rcases p with ⟨t, v⟩
  unfold propertyWf at h
  cases v <;>
    simp only [Bool.and_eq_true, Bool.or_eq_true, beq_iff_eq,
      decide_eq_true_eq] at h
  case byte b =>
    have hvb : valBytes ⟨t, .byte b⟩ = [b] := by
      simp [valBytes, serializeValue_byte t b h.1]
    simp [hvb, propertySize, h.1]
  case twoByteInteger v =>
    have hn := (isTwoByteType_iff t).mp h.1
    have hb : isByteType t = false := isByteType_false t (by omega)
    have hvb : valBytes ⟨t, .twoByteInteger v⟩ = [v / 256 % 256, v % 256] := by
      simp [valBytes, serializeValue_twoByte t v h.1]
    simp [hvb, propertySize, h.1, hb]
  case fourByteInteger v =>
    rcases h with ⟨h1, -⟩ | ⟨h1, hle⟩
    · have hn := (isFourByteType_iff t).mp h1
      have hb : isByteType t = false := isByteType_false t (by omega)
      have h2 : isTwoByteType t = false := isTwoByteType_false t (by omega)
      have hvb : valBytes ⟨t, .fourByteInteger v⟩ =
          [v / 16777216 % 256, v / 65536 % 256, v / 256 % 256, v % 256] := by
        simp [valBytes, serializeValue_fourByte t v h1]
      simp [hvb, propertySize, h1, hb, h2]
    · subst h1
      have hvb : valBytes ⟨MQTT5_PROPERTY_SUBSCRIPTION_IDENTIFIER,
          .fourByteInteger v⟩ = encodeVariableByteInteger v := by
        simp [valBytes, serializeValue_subId v]
      have hlen : (encodeVariableByteInteger v).length ≤ 4 :=
        encode_len_le 4 v (by omega) (by norm_num; omega)
      have hps : propertySize ⟨MQTT5_PROPERTY_SUBSCRIPTION_IDENTIFIER,
          .fourByteInteger v⟩ = 5 := by
        simp [propertySize,
          (by decide : isByteType MQTT5_PROPERTY_SUBSCRIPTION_IDENTIFIER = false),
          (by decide : isTwoByteType MQTT5_PROPERTY_SUBSCRIPTION_IDENTIFIER = false),
          (by decide : isFourByteType MQTT5_PROPERTY_SUBSCRIPTION_IDENTIFIER = false),
          (by decide : isUtf8Type MQTT5_PROPERTY_SUBSCRIPTION_IDENTIFIER = false),
          (by decide : isBinaryType MQTT5_PROPERTY_SUBSCRIPTION_IDENTIFIER = false),
          (by decide : ¬ (MQTT5_PROPERTY_SUBSCRIPTION_IDENTIFIER =
            MQTT5_PROPERTY_USER_PROPERTY))]
      rw [hvb, hps]
      omega
  case utf8String s =>
    have hn := (isUtf8Type_iff t).mp h.1
    have hb : isByteType t = false := isByteType_false t (by omega)
    have h2 : isTwoByteType t = false := isTwoByteType_false t (by omega)
    have h4 : isFourByteType t = false := isFourByteType_false t (by omega)
    have hvb : valBytes ⟨t, .utf8String s⟩ =
        [s.length / 256 % 256, s.length % 256] ++ s := by
      simp [valBytes, serializeValue_utf8 t s h.1]
    simp [hvb, propertySize, h.1, hb, h2, h4, MQTT5PropertyValue.utf8]
    omega
  case binaryData d =>
    have hn := (isBinaryType_iff t).mp h.1
    have hb : isByteType t = false := isByteType_false t (by omega)
    have h2 : isTwoByteType t = false := isTwoByteType_false t (by omega)
    have h4 : isFourByteType t = false := isFourByteType_false t (by omega)
    have h8 : isUtf8Type t = false := isUtf8Type_false t (by omega)
    have hvb : valBytes ⟨t, .binaryData d⟩ =
        [d.length / 256 % 256, d.length % 256] ++ d := by
      simp [valBytes, serializeValue_binary t d h.1]
    simp [hvb, propertySize, h.1, hb, h2, h4, h8, MQTT5PropertyValue.bin]
    omega
  case userProperty k v =>
    rcases h with ⟨⟨h1, -⟩, -⟩
    subst h1
    have hvb : valBytes ⟨MQTT5_PROPERTY_USER_PROPERTY, .userProperty k v⟩ =
        [k.length / 256 % 256, k.length % 256] ++ k ++
        [v.length / 256 % 256, v.length % 256] ++ v := by
      simp [valBytes, serializeValue_user k v]
    simp [hvb, propertySize,
      (by decide : isByteType MQTT5_PROPERTY_USER_PROPERTY = false),
      (by decide : isTwoByteType MQTT5_PROPERTY_USER_PROPERTY = false),
      (by decide : isFourByteType MQTT5_PROPERTY_USER_PROPERTY = false),
      (by decide : isUtf8Type MQTT5_PROPERTY_USER_PROPERTY = false),
      (by decide : isBinaryType MQTT5_PROPERTY_USER_PROPERTY = false),
      MQTT5PropertyValue.key, MQTT5PropertyValue.val]
    omega

lemma valBytes_all_lt {p : MQTT5Property} (h : propertyWf p = true) :
    ∀ b ∈ valBytes p, b < 256 := by
  rcases p with ⟨t, v⟩
  unfold propertyWf at h
  cases v <;>
    simp only [Bool.and_eq_true, Bool.or_eq_true, beq_iff_eq,
      decide_eq_true_eq] at h
  case byte b =>
    have hvb : valBytes ⟨t, .byte b⟩ = [b] := by
      simp [valBytes, serializeValue_byte t b h.1]
    rw [hvb]
    intro x hx
    simp at hx
    omega
  case twoByteInteger v =>
    have hvb : valBytes ⟨t, .twoByteInteger v⟩ = [v / 256 % 256, v % 256] := by
      simp [valBytes, serializeValue_twoByte t v h.1]
    rw [hvb]
    intro x hx
    simp at hx
    rcases hx with rfl | rfl <;> omega
  case fourByteInteger v =>
    rcases h with ⟨h1, -⟩ | ⟨h1, -⟩
    · have hvb : valBytes ⟨t, .fourByteInteger v⟩ =
          [v / 16777216 % 256, v / 65536 % 256, v / 256 % 256, v % 256] := by
        simp [valBytes, serializeValue_fourByte t v h1]
      rw [hvb]
      intro x hx
      simp at hx
      rcases hx with rfl | rfl | rfl | rfl <;> omega
    · subst h1
      have hvb : valBytes ⟨MQTT5_PROPERTY_SUBSCRIPTION_IDENTIFIER,
          .fourByteInteger v⟩ = encodeVariableByteInteger v := by
        simp [valBytes, serializeValue_subId v]
      rw [hvb]
      exact encode_all_lt v
  case utf8String s =>
    have hvb : valBytes ⟨t, .utf8String s⟩ =
        [s.length / 256 % 256, s.length % 256] ++ s := by
      simp [valBytes, serializeValue_utf8 t s h.1]
    rw [hvb]
    intro x hx
    rcases List.mem_append.mp hx with hx | hx
    · simp at hx; rcases hx with rfl | rfl <;> omega
    · exact byteListOk_mem h.2 x hx
  case binaryData d =>
    have hvb : valBytes ⟨t, .binaryData d⟩ =
        [d.length / 256 % 256, d.length % 256] ++ d := by
      simp [valBytes, serializeValue_binary t d h.1]
    rw [hvb]
    intro x hx
    rcases List.mem_append.mp hx with hx | hx
    · simp at hx; rcases hx with rfl | rfl <;> omega
    · exact byteListOk_mem h.2 x hx
  case userProperty k v =>
    rcases h with ⟨⟨h1, hokk⟩, hokv⟩
    subst h1
    have hvb : valBytes ⟨MQTT5_PROPERTY_USER_PROPERTY, .userProperty k v⟩ =
        [k.length / 256 % 256, k.length % 256] ++ k ++
        [v.length / 256 % 256, v.length % 256] ++ v := by
      simp [valBytes, serializeValue_user k v]
    rw [hvb]
    intro x hx
    rcases List.mem_append.mp hx with hx | hx
    · rcases List.mem_append.mp hx with hx | hx
      · rcases List.mem_append.mp hx with hx | hx
        · simp at hx; rcases hx with rfl | rfl <;> omega
        · exact byteListOk_mem hokk x hx
      · simp at hx; rcases hx with rfl | rfl <;> omega
    · exact byteListOk_mem hokv x hx

lemma serializeLoop_wf : ∀ l : List MQTT5Property,
    (∀ p ∈ l, propertyWf p = true) →
    serializeLoop l = (.MQTTSuccess, chunkBytes l) := by
  intro l
  induction l with
  | nil => intro _; rfl
  | cons p rest ih =>
    intro hwf
    have hp := hwf p (by simp)
    have hrest := ih (fun q hq => hwf q (by simp [hq]))
    rw [serializeLoop, serializeValue_wf hp, hrest]
    rfl

lemma chunkBytes_length_le : ∀ l : List MQTT5Property,
    (∀ p ∈ l, propertyWf p = true) →
    (chunkBytes l).length ≤ (l.map propertySize).sum := by
  intro l
  induction l with
  | nil => intro _; simp [chunkBytes]
  | cons p rest ih =>
    intro hwf
    have hp := chunk_le_size (hwf p (by simp))
    have hrest := ih (fun q hq => hwf q (by simp [hq]))
    simp only [chunkBytes, List.map_cons, List.sum_cons, List.length_append,
      List.length_cons]
    omega

lemma chunkBytes_all_lt : ∀ l : List MQTT5Property,
    (∀ p ∈ l, propertyWf p = true) →
    ∀ b ∈ chunkBytes l, b < 256 := by
  intro l
  induction l with
  | nil => intro _ b hb; simp [chunkBytes] at hb
  | cons p rest ih =>
    intro hwf b hb
    simp only [chunkBytes, List.cons_append, List.mem_cons,
      List.mem_append] at hb
    rcases hb with rfl | hb | hb
    · exact Nat.mod_lt _ (by omega)
    · exact valBytes_all_lt (hwf p (by simp)) b hb
    · exact ih (fun q hq => hwf q (by simp [hq])) b hb

lemma addProperty_full (ps : MQTT5Properties) (p : MQTT5Property)
    (h : ps.count ≥ ps.capacity) : MQTT5_AddProperty ps p = (.MQTTNoMemory, ps) := by
  rw [MQTT5_AddProperty, if_pos h]

lemma addProperty_ok (ps : MQTT5Properties) (p : MQTT5Property)
    (h : ps.count < ps.capacity) :
    (MQTT5_AddProperty ps p).1 = .MQTTSuccess ∧
    (MQTT5_AddProperty ps p).2.toList = ps.toList ++ [p] ∧
    (MQTT5_AddProperty ps p).2.count = ps.count + 1 ∧
    (MQTT5_AddProperty ps p).2.capacity = ps.capacity := by
  rw [MQTT5_AddProperty, if_neg (by omega)]
  refine ⟨rfl, ?_, rfl, rfl⟩
  simp only [MQTT5Properties.toList, List.range_succ, List.map_append,
    List.map_cons, List.map_nil]
  congr 1
  apply List.map_congr_left
  intro i hi
  simp only [List.mem_range] at hi
  simp [Nat.ne_of_lt hi]

lemma deserLoop_done (buf : Nat → Nat) (size limit index : Nat)
    (ps : MQTT5Properties) (h : ¬ (index < size ∧ index < limit)) :
    deserLoop buf size limit index ps = (.MQTTSuccess, ps) := by
  rw [deserLoop, dif_neg h]

/-- Main parsing lemma: if the bytes from `index` on are exactly the
serialized chunks of a well-formed property list `l`, the deserializer
loop succeeds and appends exactly `l` to the collection. -/
lemma deserLoop_of_chunks : ∀ (l : List MQTT5Property) (buf : Nat → Nat)
    (size limit index : Nat) (e : MQTT5Properties),
    (∀ p ∈ l, propertyWf p = true) →
    readBytes buf index (chunkBytes l).length = chunkBytes l →
    size = index + (chunkBytes l).length →
    size ≤ limit →
    e.count + l.length ≤ e.capacity →
    (deserLoop buf size limit index e).1 = .MQTTSuccess ∧
    (deserLoop buf size limit index e).2.toList = e.toList ++ l ∧
    (deserLoop buf size limit index e).2.capacity = e.capacity := by
  intro l
  induction l with
  | nil =>
    intro buf size limit index e _ _ hsize _ _
    simp only [chunkBytes, List.length_nil, Nat.add_zero] at hsize
    subst hsize
    rw [deserLoop_done _ _ _ _ _ (by omega)]
    simp
  | cons p rest ih =>
    intro buf size limit index e hwf hread hsize hlimit hcap
    have hp : propertyWf p = true := hwf p (by simp)
    have hwfr : ∀ q ∈ rest, propertyWf q = true :=
      fun q hq => hwf q (by simp [hq])
    have hchunk : chunkBytes (p :: rest) =
        (p.type % 256 :: valBytes p) ++ chunkBytes rest := rfl
    have hclen : (chunkBytes (p :: rest)).length =
        (1 + (valBytes p).length) + (chunkBytes rest).length := by
      rw [hchunk]; simp; omega
    rw [hclen] at hread hsize
    rw [hchunk] at hread
    rw [readBytes_append buf index _ _] at hread
    have hsp := List.append_inj hread (by simp [readBytes_length]; omega)
    have hhead := hsp.1
    have htail := hsp.2
    rw [Nat.add_comm 1 (valBytes p).length, readBytes_succ] at hhead
    injection hhead with hh ht
    have hmod : p.type % 256 = p.type := Nat.mod_eq_of_lt (type_lt_of_wf hp)
    rw [hmod] at hh
    have hdv := deserializeValue_of_serialized p hp buf size (index + 1) ht
      (by omega)
    have hcnt : e.count < e.capacity := by
      simp only [List.length_cons] at hcap; omega
    have hadd := addProperty_ok e ⟨p.type, p.value⟩ hcnt
    rcases hx : MQTT5_AddProperty e ⟨p.type, p.value⟩ with ⟨st2, e2⟩
    rw [hx] at hadd
    simp only [] at hadd
    obtain ⟨hst2, htl2, hcnt2, hcap2⟩ := hadd
    subst hst2
    have htail2 : readBytes buf (index + 1 + (valBytes p).length)
        (chunkBytes rest).length = chunkBytes rest := by
      have hpos : index + (1 + (valBytes p).length) =
          index + 1 + (valBytes p).length := by omega
      rw [hpos] at htail
      exact htail
    have hrec := ih buf size limit (index + 1 + (valBytes p).length)
      e2 hwfr htail2 (by omega) hlimit
      (by
        simp only [List.length_cons] at hcap
        rw [hcnt2, hcap2]
        omega)
    rw [deserLoop, dif_pos (by constructor <;> omega)]
    simp only [hh, hdv, hx]
    refine ⟨hrec.1, ?_, ?_⟩
    · rw [hrec.2.1, htl2]
      simp
    · rw [hrec.2.2, hcap2]

lemma decode_of_encoded_head (v : Nat) (hv : v ≤ 268435455) (buf : Nat → Nat)
    (bufSz : Nat)
    (hag : ∀ i, i < (encodeVariableByteInteger v).length →
      buf i % 256 = (encodeVariableByteInteger v).getD i 0)
    (hsz : (encodeVariableByteInteger v).length ≤ bufSz) :
    MQTT5_DecodeVariableByteInteger buf bufSz =
      ((encodeVariableByteInteger v).length, v) := by
  have hlen : (encodeVariableByteInteger v).length ≤ 4 :=
    encode_len_le 4 v (by omega) (by norm_num; omega)
  have h := decode_encode_aux v buf bufSz 0 1 0
    (by intro i hi; simpa using hag i hi) (by omega) (by omega)
  simpa [MQTT5_DecodeVariableByteInteger] using h

lemma toList_length (ps : MQTT5Properties) : ps.toList.length = ps.count := by
  simp [MQTT5Properties.toList]

lemma toList_of_count_zero {e : MQTT5Properties} (h : e.count = 0) :
    e.toList = [] := by
  simp [MQTT5Properties.toList, h]

/-- Claim C2: a well-formed collection that serializes successfully
round-trips: deserializing the exact bytes written (with the reported
size) into an empty collection of sufficient capacity succeeds and
reproduces the same properties (count, types, values) in the same order.
The hypotheses mirror the claim: the type/value-shape invariant with the
16-bit length bounds (propertyWf), capacity at least the source count, and
an empty destination; `MQTT5_GetPropertiesSize ps ≤ 268435455` reflects
the wire format's VBI bound on the length prefix (the uint32 cast and the
1-4 byte VBI cannot represent a longer properties block). -/
theorem C2_serialize_deserialize_roundtrip (ps e : MQTT5Properties)
    (hwf : ∀ p ∈ ps.toList, propertyWf p = true)
    (hlen : MQTT5_GetPropertiesSize ps ≤ 268435455)
    (hcap : ps.count ≤ e.capacity)
    (hec : e.count = 0)
    (hser : (MQTT5_SerializeProperties ps).1 = .MQTTSuccess) :
    (MQTT5_DeserializeProperties e (bufOf (MQTT5_SerializeProperties ps).2.1)
      (MQTT5_SerializeProperties ps).2.2).1 = .MQTTSuccess ∧
    (MQTT5_DeserializeProperties e (bufOf (MQTT5_SerializeProperties ps).2.1)
      (MQTT5_SerializeProperties ps).2.2).2.toList = ps.toList := by
  have hserLoop := serializeLoop_wf ps.toList hwf
  have hmod : MQTT5_GetPropertiesSize ps % 4294967296 =
      MQTT5_GetPropertiesSize ps := Nat.mod_eq_of_lt (by omega)
  have hout : (MQTT5_SerializeProperties ps).2.1 =
      encodeVariableByteInteger (MQTT5_GetPropertiesSize ps) ++
      chunkBytes ps.toList := by
    simp [MQTT5_SerializeProperties, hserLoop, hmod]
  have hn : (MQTT5_SerializeProperties ps).2.2 =
      (encodeVariableByteInteger (MQTT5_GetPropertiesSize ps) ++
       chunkBytes ps.toList).length := by
    simp [MQTT5_SerializeProperties, hserLoop, hmod]
  rw [hout, hn]
  have hchunklt := chunkBytes_all_lt ps.toList hwf
  have hencLt := encode_all_lt (MQTT5_GetPropertiesSize ps)
  have hallLt : ∀ b ∈ encodeVariableByteInteger (MQTT5_GetPropertiesSize ps) ++
      chunkBytes ps.toList, b < 256 := by
    intro b hb
    rcases List.mem_append.mp hb with hb | hb
    · exact hencLt b hb
    · exact hchunklt b hb
  have hlensum : (encodeVariableByteInteger (MQTT5_GetPropertiesSize ps) ++
      chunkBytes ps.toList).length =
      (encodeVariableByteInteger (MQTT5_GetPropertiesSize ps)).length +
      (chunkBytes ps.toList).length := by simp
  have hreadPfx : readBytes
      (bufOf (encodeVariableByteInteger (MQTT5_GetPropertiesSize ps) ++
        chunkBytes ps.toList)) 0
      (encodeVariableByteInteger (MQTT5_GetPropertiesSize ps)).length =
      encodeVariableByteInteger (MQTT5_GetPropertiesSize ps) := by
    rw [readBytes_bufOf _ _ _ (by simp) hallLt]
    simp [List.take_left]
  have hdecode : MQTT5_DecodeVariableByteInteger
      (bufOf (encodeVariableByteInteger (MQTT5_GetPropertiesSize ps) ++
        chunkBytes ps.toList))
      (encodeVariableByteInteger (MQTT5_GetPropertiesSize ps) ++
        chunkBytes ps.toList).length =
      ((encodeVariableByteInteger (MQTT5_GetPropertiesSize ps)).length,
       MQTT5_GetPropertiesSize ps) := by
    apply decode_of_encoded_head _ hlen
    · intro i hi
      have hgd := readBytes_getD
        (bufOf (encodeVariableByteInteger (MQTT5_GetPropertiesSize ps) ++
          chunkBytes ps.toList)) 0
        (encodeVariableByteInteger (MQTT5_GetPropertiesSize ps)).length i hi
      rw [hreadPfx] at hgd
      simpa using hgd.symm
    · simp
  have hreadBody : readBytes
      (bufOf (encodeVariableByteInteger (MQTT5_GetPropertiesSize ps) ++
        chunkBytes ps.toList))
      (encodeVariableByteInteger (MQTT5_GetPropertiesSize ps)).length
      (chunkBytes ps.toList).length = chunkBytes ps.toList := by
    rw [readBytes_bufOf _ _ _ (by simp) hallLt]
    rw [List.drop_left, List.take_length]
  have hbody_le : (chunkBytes ps.toList).length ≤ MQTT5_GetPropertiesSize ps :=
    chunkBytes_length_le ps.toList hwf
  have hpos : 1 ≤ (encodeVariableByteInteger (MQTT5_GetPropertiesSize ps)).length :=
    encode_len_pos _
  have hmain := deserLoop_of_chunks ps.toList
    (bufOf (encodeVariableByteInteger (MQTT5_GetPropertiesSize ps) ++
      chunkBytes ps.toList))
    (encodeVariableByteInteger (MQTT5_GetPropertiesSize ps) ++
      chunkBytes ps.toList).length
    ((encodeVariableByteInteger (MQTT5_GetPropertiesSize ps)).length +
      MQTT5_GetPropertiesSize ps)
    (encodeVariableByteInteger (MQTT5_GetPropertiesSize ps)).length
    e hwf hreadBody (by simp) (by simp; omega)
    (by rw [toList_length, hec]; omega)
  rw [MQTT5_DeserializeProperties]
  simp only [hdecode]
  rw [if_neg (by omega)]
  exact ⟨hmain.1, by rw [hmain.2.1, toList_of_count_zero hec]; simp⟩

lemma deserLoop_parallel : ∀ (n : Nat) (buf : Nat → Nat)
    (size limit index : Nat) (a b a2 b2 : MQTT5Properties),
    size - index ≤ n →
    deserLoop buf size limit index a = (.MQTTSuccess, a2) →
    deserLoop buf size limit index b = (.MQTTSuccess, b2) →
    a2.capacity = a.capacity ∧
    ∃ d, a2.toList = a.toList ++ d ∧ b2.toList = b.toList ++ d := by
  intro n
  induction n with
  | zero =>
    intro buf size limit index a b a2 b2 hn h1 h2
    rw [deserLoop_done _ _ _ _ _ (by omega)] at h1 h2
    simp only [Prod.mk.injEq, true_and] at h1 h2
    subst h1; subst h2
    exact ⟨rfl, [], by simp, by simp⟩
  | succ k ih =>
    intro buf size limit index a b a2 b2 hn h1 h2
    by_cases hg : index < size ∧ index < limit
    · rw [deserLoop, dif_pos hg] at h1
      rw [deserLoop, dif_pos hg] at h2
      simp only [] at h1 h2
      rcases hdv : deserializeValue (readByte buf index) buf size (index + 1)
        with ⟨st, v, w⟩
      rw [hdv] at h1 h2
      cases st
      case _ =>
        simp only [] at h1 h2
        by_cases hca : a.count ≥ a.capacity
        · rw [addProperty_full a _ hca] at h1
          simp at h1
        · have hadda := addProperty_ok a ⟨readByte buf index, v⟩ (by omega)
          rcases hxa : MQTT5_AddProperty a ⟨readByte buf index, v⟩ with ⟨sta, a1⟩
          rw [hxa] at h1 hadda
          simp only [] at hadda
          obtain ⟨hsta, htla, hcnta, hcapa⟩ := hadda
          subst hsta
          by_cases hcb : b.count ≥ b.capacity
          · rw [addProperty_full b _ hcb] at h2
            simp at h2
          · have haddb := addProperty_ok b ⟨readByte buf index, v⟩ (by omega)
            rcases hxb : MQTT5_AddProperty b ⟨readByte buf index, v⟩ with ⟨stb, b1⟩
            rw [hxb] at h2 haddb
            simp only [] at haddb
            obtain ⟨hstb, htlb, hcntb, hcapb⟩ := haddb
            subst hstb
            have hrec := ih buf size limit (index + 1 + w) a1 b1 a2 b2
              (by omega) h1 h2
            obtain ⟨hcapr, d, hda, hdb⟩ := hrec
            refine ⟨by rw [hcapr, hcapa], ⟨readByte buf index, v⟩ :: d, ?_, ?_⟩
            · rw [hda, htla]
              simp
            · rw [hdb, htlb]
              simp
      case _ =>
        simp at h1
      case _ =>
        simp at h1
    · rw [deserLoop_done _ _ _ _ _ hg] at h1 h2
      simp only [Prod.mk.injEq, true_and] at h1 h2
      subst h1; subst h2
      exact ⟨rfl, [], by simp, by simp⟩

lemma addProperty_frame (ps : MQTT5Properties) (p : MQTT5Property) :
    ∀ i, i < ps.count →
    (MQTT5_AddProperty ps p).2.pProperties i = ps.pProperties i := by
  intro i hi
  rw [MQTT5_AddProperty]
  by_cases h : ps.count ≥ ps.capacity
  · rw [if_pos h]
  · rw [if_neg h]
    simp only []
    rw [if_neg (by omega)]

lemma deserLoop_frame : ∀ (n : Nat) (buf : Nat → Nat)
    (size limit index : Nat) (ps : MQTT5Properties),
    size - index ≤ n →
    (deserLoop buf size limit index ps).2.capacity = ps.capacity ∧
    ps.count ≤ (deserLoop buf size limit index ps).2.count ∧
    ∀ i, i < ps.count →
      (deserLoop buf size limit index ps).2.pProperties i = ps.pProperties i := by
  intro n
  induction n with
  | zero =>
    intro buf size limit index ps hn
    rw [deserLoop_done _ _ _ _ _ (by omega)]
    exact ⟨rfl, Nat.le_refl _, fun i _ => rfl⟩
  | succ k ih =>
    intro buf size limit index ps hn
    by_cases hg : index < size ∧ index < limit
    · rw [deserLoop, dif_pos hg]
      simp only []
      rcases hdv : deserializeValue (readByte buf index) buf size (index + 1)
        with ⟨st, v, w⟩
      cases st
      case _ =>
        simp only []
        by_cases hca : ps.count ≥ ps.capacity
        · rw [addProperty_full ps _ hca]
          simp
        · have hadd := addProperty_ok ps ⟨readByte buf index, v⟩ (by omega)
          have hfr := addProperty_frame ps ⟨readByte buf index, v⟩
          rcases hx : MQTT5_AddProperty ps ⟨readByte buf index, v⟩
            with ⟨st2, ps1⟩
          rw [hx] at hadd hfr
          simp only [] at hadd hfr
          obtain ⟨hst2, -, hcnt2, hcap2⟩ := hadd
          subst hst2
          simp only []
          have hrec := ih buf size limit (index + 1 + w) ps1 (by omega)
          refine ⟨by rw [hrec.1, hcap2], by omega, ?_⟩
          intro i hi
          rw [hrec.2.2 i (by omega), hfr i hi]
      case _ =>
        simp
      case _ =>
        simp
    · rw [deserLoop_done _ _ _ _ _ hg]
      exact ⟨rfl, Nat.le_refl _, fun i _ => rfl⟩

/-- Claim C10: deserialization appends after any entries already present:
whenever both a run into collection `ps` and a run into an empty
collection `e` succeed on the same input, the result for `ps` is its
pre-existing entries (unchanged, in order) followed by exactly the
properties parsed from the wire (the contents of the run from empty),
and the capacity binding is untouched. -/
theorem C10_deserialize_appends (ps e ps2 e2 : MQTT5Properties)
    (buf : Nat → Nat) (size : Nat) (hec : e.count = 0)
    (h1 : MQTT5_DeserializeProperties ps buf size = (.MQTTSuccess, ps2))
    (h2 : MQTT5_DeserializeProperties e buf size = (.MQTTSuccess, e2)) :
    ps2.capacity = ps.capacity ∧ ps2.toList = ps.toList ++ e2.toList ∧
    (∀ st3 ps3, MQTT5_DeserializeProperties ps buf size = (st3, ps3) →
      ps3.capacity = ps.capacity ∧ ps.count ≤ ps3.count ∧
      ∀ i, i < ps.count → ps3.pProperties i = ps.pProperties i) := by
  have hframe : ∀ st3 ps3,
      MQTT5_DeserializeProperties ps buf size = (st3, ps3) →
      ps3.capacity = ps.capacity ∧ ps.count ≤ ps3.count ∧
      ∀ i, i < ps.count → ps3.pProperties i = ps.pProperties i := by
    intro st3 ps3 h3
    rw [MQTT5_DeserializeProperties] at h3
    by_cases hr : (MQTT5_DecodeVariableByteInteger buf size).1 = 0
    · rw [if_pos hr] at h3
      have hps3 : ps = ps3 := congrArg Prod.snd h3
      subst hps3
      exact ⟨rfl, Nat.le_refl _, fun i _ => rfl⟩
    · rw [if_neg hr] at h3
      have hfr := deserLoop_frame size buf size
        ((MQTT5_DecodeVariableByteInteger buf size).1 +
         (MQTT5_DecodeVariableByteInteger buf size).2)
        (MQTT5_DecodeVariableByteInteger buf size).1 ps (by omega)
      rw [h3] at hfr
      exact hfr
  rw [MQTT5_DeserializeProperties] at h1 h2
  by_cases hr : (MQTT5_DecodeVariableByteInteger buf size).1 = 0
  · rw [if_pos hr] at h1
    simp at h1
  · rw [if_neg hr] at h1 h2
    have hpar := deserLoop_parallel size buf size
      ((MQTT5_DecodeVariableByteInteger buf size).1 +
       (MQTT5_DecodeVariableByteInteger buf size).2)
      (MQTT5_DecodeVariableByteInteger buf size).1 ps e ps2 e2
      (by omega) h1 h2
    obtain ⟨hcap, d, hda, hdb⟩ := hpar
    rw [toList_of_count_zero hec] at hdb
    simp only [List.nil_append] at hdb
    exact ⟨hcap, by rw [hda, hdb], hframe⟩

lemma getPropLoop_notfound : ∀ (n : Nat) (bufp : Nat → MQTT5Property)
    (count t i : Nat) (out : MQTT5Property),
    count - i ≤ n →
    (∀ j, i ≤ j → j < count → (bufp j).type ≠ t) →
    getPropLoop bufp count t i out = (.MQTTBadParameter, out) := by
  intro n
  induction n with
  | zero =>
    intro bufp count t i out hn hno
    rw [getPropLoop, dif_neg (by omega)]
  | succ k ih =>
    intro bufp count t i out hn hno
    by_cases hi : i < count
    · rw [getPropLoop, dif_pos hi, if_neg (hno i (by omega) hi)]
      exact ih bufp count t (i + 1) out (by omega)
        (fun j hj1 hj2 => hno j (by omega) hj2)
    · rw [getPropLoop, dif_neg hi]

/-- Claim C9: when no entry of the requested type exists,
MQTT5_GetProperty reports MQTTBadParameter and leaves the caller's
output record bit-for-bit unchanged; and no call to MQTT5_GetProperty
ever mutates the collection. -/
theorem C9_getProperty_notfound (ps : MQTT5Properties) (t : Nat)
    (out : MQTT5Property)
    (h : ∀ i, i < ps.count → (ps.pProperties i).type ≠ t) :
    MQTT5_GetProperty ps t out = (.MQTTBadParameter, out, ps) ∧
    ∀ t2 out2, (MQTT5_GetProperty ps t2 out2).2.2 = ps := by
  constructor
  · rw [MQTT5_GetProperty,
      getPropLoop_notfound ps.count ps.pProperties ps.count t 0 out
        (by omega) (fun j _ hj => h j hj)]
  · intro t2 out2
    rfl

/-- Claim C7: appending to a full collection (count = capacity) fails
with MQTTNoMemory (the capacity-exceeded error) and returns the
collection completely unchanged: same backing function, count and
capacity. -/
theorem C7_addProperty_full (ps : MQTT5Properties) (p : MQTT5Property)
    (h : ps.count = ps.capacity) :
    MQTT5_AddProperty ps p = (.MQTTNoMemory, ps) :=
  addProperty_full ps p (by omega)

lemma deserializeValue_unknown (t : Nat) (buf : Nat → Nat) (size i : Nat)
    (h : isKnownPropertyType t = false) :
    deserializeValue t buf size i = (.MQTTBadParameter, .byte 0, 0) := by
  simp only [isKnownPropertyType, Bool.or_eq_false_iff] at h
  obtain ⟨⟨⟨⟨⟨⟨h1, h2⟩, h3⟩, h4⟩, h5⟩, h6⟩, h7⟩ := h
  rw [deserializeValue, if_neg (by simp [h1]), if_neg (by simp [h2]),
    if_neg (by simp [h3]), if_neg (by simp [h4]), if_neg (by simp [h5]),
    if_neg (by simp [h6]), if_neg (by simp [h7])]

/-- Claim C8: when the next identifier byte matches no known property
type, the deserializer loop stops at once with MQTTBadParameter,
appending nothing further — it does not skip the unknown property and
continue. -/
theorem C8_unknown_identifier_aborts (buf : Nat → Nat)
    (size limit index : Nat) (ps : MQTT5Properties)
    (h1 : index < size) (h2 : index < limit)
    (h3 : isKnownPropertyType (readByte buf index) = false) :
    deserLoop buf size limit index ps = (.MQTTBadParameter, ps) := by
  rw [deserLoop, dif_pos ⟨h1, h2⟩]
  simp only [deserializeValue_unknown (readByte buf index) buf size
    (index + 1) h3]

/-- Claim C1 (refuted; code bug): the deserializer does not bounds-check
value reads.  (1) A properties block declaring length 5 inside a 1-byte
buffer is accepted with MQTTSuccess (nothing parsed) instead of failing
with the malformed error.  (2) Two memories that agree on every byte of a
2-byte buffer but differ at the first byte past its end give different
deserialization results: the value of the PAYLOAD_FORMAT_INDICATOR
property at the end of the buffer is read from beyond `size`. -/
theorem C1_no_bounds_check_eval :
    MQTT5_DeserializeProperties emptyProps (bufOf [5]) 1 =
      (.MQTTSuccess, emptyProps) ∧
    bufTwoA 0 = bufTwoB 0 ∧ bufTwoA 1 = bufTwoB 1 ∧
    (MQTT5_DeserializeProperties emptyProps bufTwoA 2).2.toList ≠
      (MQTT5_DeserializeProperties emptyProps bufTwoB 2).2.toList := by
  have hA : (MQTT5_DeserializeProperties emptyProps bufTwoA 2).2.toList =
      [⟨1, .byte 0⟩] := by
    simp [MQTT5_DeserializeProperties, MQTT5_DecodeVariableByteInteger,
      decodeStep, deserLoop, deserializeValue, readByte, bufOf, bufTwoA,
      emptyProps, MQTT5_AddProperty, MQTT5Properties.toList, List.range_succ,
      isByteType, isTwoByteType, isFourByteType, isUtf8Type, isBinaryType,
      MQTT5_PROPERTY_PAYLOAD_FORMAT_INDICATOR,
      MQTT5_PROPERTY_REQUEST_PROBLEM_INFORMATION,
      MQTT5_PROPERTY_REQUEST_RESPONSE_INFORMATION, MQTT5_PROPERTY_MAXIMUM_QOS,
      MQTT5_PROPERTY_RETAIN_AVAILABLE,
      MQTT5_PROPERTY_WILDCARD_SUBSCRIPTION_AVAILABLE,
      MQTT5_PROPERTY_SUBSCRIPTION_IDENTIFIER_AVAILABLE,
      MQTT5_PROPERTY_SHARED_SUBSCRIPTION_AVAILABLE]
  have hB : (MQTT5_DeserializeProperties emptyProps bufTwoB 2).2.toList =
      [⟨1, .byte 7⟩] := by
    simp [MQTT5_DeserializeProperties, MQTT5_DecodeVariableByteInteger,
      decodeStep, deserLoop, deserializeValue, readByte, bufOf, bufTwoB,
      emptyProps, MQTT5_AddProperty, MQTT5Properties.toList, List.range_succ,
      isByteType, isTwoByteType, isFourByteType, isUtf8Type, isBinaryType,
      MQTT5_PROPERTY_PAYLOAD_FORMAT_INDICATOR,
      MQTT5_PROPERTY_REQUEST_PROBLEM_INFORMATION,
      MQTT5_PROPERTY_REQUEST_RESPONSE_INFORMATION, MQTT5_PROPERTY_MAXIMUM_QOS,
      MQTT5_PROPERTY_RETAIN_AVAILABLE,
      MQTT5_PROPERTY_WILDCARD_SUBSCRIPTION_AVAILABLE,
      MQTT5_PROPERTY_SUBSCRIPTION_IDENTIFIER_AVAILABLE,
      MQTT5_PROPERTY_SHARED_SUBSCRIPTION_AVAILABLE]
  refine ⟨?_, rfl, rfl, ?_⟩
  · simp [MQTT5_DeserializeProperties, MQTT5_DecodeVariableByteInteger,
      decodeStep, deserLoop, readByte, bufOf, emptyProps]
  · rw [hA, hB]
    decide

lemma encode_five : encodeVariableByteInteger 5 = [5] := by
  simp [encodeVariableByteInteger]

lemma subIdColl_size : MQTT5_GetPropertiesSize subIdColl = 5 := by
  simp [MQTT5_GetPropertiesSize, subIdColl, MQTT5Properties.toList,
    List.range_succ, propertySize, isByteType, isTwoByteType,
    isFourByteType, isUtf8Type, isBinaryType,
    MQTT5_PROPERTY_PAYLOAD_FORMAT_INDICATOR,
    MQTT5_PROPERTY_REQUEST_PROBLEM_INFORMATION,
    MQTT5_PROPERTY_REQUEST_RESPONSE_INFORMATION, MQTT5_PROPERTY_MAXIMUM_QOS,
    MQTT5_PROPERTY_RETAIN_AVAILABLE,
    MQTT5_PROPERTY_WILDCARD_SUBSCRIPTION_AVAILABLE,
    MQTT5_PROPERTY_SUBSCRIPTION_IDENTIFIER_AVAILABLE,
    MQTT5_PROPERTY_SHARED_SUBSCRIPTION_AVAILABLE,
    MQTT5_PROPERTY_SERVER_KEEP_ALIVE, MQTT5_PROPERTY_RECEIVE_MAXIMUM,
    MQTT5_PROPERTY_TOPIC_ALIAS_MAXIMUM, MQTT5_PROPERTY_TOPIC_ALIAS,
    MQTT5_PROPERTY_MESSAGE_EXPIRY_INTERVAL,
    MQTT5_PROPERTY_SESSION_EXPIRY_INTERVAL,
    MQTT5_PROPERTY_WILL_DELAY_INTERVAL, MQTT5_PROPERTY_MAXIMUM_PACKET_SIZE,
    MQTT5_PROPERTY_CONTENT_TYPE, MQTT5_PROPERTY_RESPONSE_TOPIC,
    MQTT5_PROPERTY_ASSIGNED_CLIENT_IDENTIFIER,
    MQTT5_PROPERTY_AUTHENTICATION_METHOD,
    MQTT5_PROPERTY_RESPONSE_INFORMATION, MQTT5_PROPERTY_SERVER_REFERENCE,
    MQTT5_PROPERTY_REASON_STRING, MQTT5_PROPERTY_CORRELATION_DATA,
    MQTT5_PROPERTY_AUTHENTICATION_DATA, MQTT5_PROPERTY_USER_PROPERTY,
    MQTT5_PROPERTY_SUBSCRIPTION_IDENTIFIER]

/-- Claim C3 (refuted; code bug): MQTT5_GetPropertiesSize charges a
SUBSCRIPTION_IDENTIFIER property a fixed 4 value bytes (total 5 with the
identifier), while the VBI encoder emits only 1 byte for the value 5, so
the exact charge demanded by the claim would be 2; the code's answer
differs from 1 byte plus the exact VBI width. -/
theorem C3_subid_size_fixed_four_eval :
    MQTT5_GetPropertiesSize subIdColl = 5 ∧
    (encodeVariableByteInteger 5).length = 1 ∧
    1 + (encodeVariableByteInteger 5).length ≠ MQTT5_GetPropertiesSize subIdColl := by
  refine ⟨subIdColl_size, by simp [encode_five], ?_⟩
  rw [subIdColl_size, encode_five]
  decide

/-- Claim C4 (refuted; code bug): serializing the one-element
SUBSCRIPTION_IDENTIFIER(5) collection writes 3 bytes (prefix 0x05,
identifier 0x0B, VBI value 0x05) and reports *pSize = 3, while the VBI
prefix width (1) plus the propertiesLength the prefix encodes (5) is 6:
serialization does not consume the declared propertiesLength bytes. -/
theorem C4_written_size_mismatch_eval :
    MQTT5_SerializeProperties subIdColl = (.MQTTSuccess, [5, 11, 5], 3) ∧
    (encodeVariableByteInteger (MQTT5_GetPropertiesSize subIdColl)).length +
      MQTT5_GetPropertiesSize subIdColl = 6 ∧
    (MQTT5_SerializeProperties subIdColl).2.2 ≠
      (encodeVariableByteInteger (MQTT5_GetPropertiesSize subIdColl)).length +
      MQTT5_GetPropertiesSize subIdColl := by
  have hser : MQTT5_SerializeProperties subIdColl =
      (.MQTTSuccess, [5, 11, 5], 3) := by
    simp [MQTT5_SerializeProperties, MQTT5_GetPropertiesSize, subIdColl,
      MQTT5Properties.toList, List.range_succ, propertySize, serializeLoop,
      serializeValue, encodeVariableByteInteger, MQTT5PropertyValue.fourVal,
      isByteType, isTwoByteType, isFourByteType, isUtf8Type, isBinaryType,
      MQTT5_PROPERTY_PAYLOAD_FORMAT_INDICATOR,
      MQTT5_PROPERTY_REQUEST_PROBLEM_INFORMATION,
      MQTT5_PROPERTY_REQUEST_RESPONSE_INFORMATION, MQTT5_PROPERTY_MAXIMUM_QOS,
      MQTT5_PROPERTY_RETAIN_AVAILABLE,
      MQTT5_PROPERTY_WILDCARD_SUBSCRIPTION_AVAILABLE,
      MQTT5_PROPERTY_SUBSCRIPTION_IDENTIFIER_AVAILABLE,
      MQTT5_PROPERTY_SHARED_SUBSCRIPTION_AVAILABLE,
      MQTT5_PROPERTY_SERVER_KEEP_ALIVE, MQTT5_PROPERTY_RECEIVE_MAXIMUM,
      MQTT5_PROPERTY_TOPIC_ALIAS_MAXIMUM, MQTT5_PROPERTY_TOPIC_ALIAS,
      MQTT5_PROPERTY_MESSAGE_EXPIRY_INTERVAL,
      MQTT5_PROPERTY_SESSION_EXPIRY_INTERVAL,
      MQTT5_PROPERTY_WILL_DELAY_INTERVAL, MQTT5_PROPERTY_MAXIMUM_PACKET_SIZE,
      MQTT5_PROPERTY_CONTENT_TYPE, MQTT5_PROPERTY_RESPONSE_TOPIC,
      MQTT5_PROPERTY_ASSIGNED_CLIENT_IDENTIFIER,
      MQTT5_PROPERTY_AUTHENTICATION_METHOD,
      MQTT5_PROPERTY_RESPONSE_INFORMATION, MQTT5_PROPERTY_SERVER_REFERENCE,
      MQTT5_PROPERTY_REASON_STRING, MQTT5_PROPERTY_CORRELATION_DATA,
      MQTT5_PROPERTY_AUTHENTICATION_DATA, MQTT5_PROPERTY_USER_PROPERTY,
      MQTT5_PROPERTY_SUBSCRIPTION_IDENTIFIER]
  refine ⟨hser, ?_, ?_⟩
  · rw [subIdColl_size]
    simp [encode_five]
  · rw [hser, subIdColl_size]
    simp [encode_five]

theorem C2_witness :
    (∀ p ∈ sessionColl.toList, propertyWf p = true) ∧
    MQTT5_GetPropertiesSize sessionColl ≤ 268435455 ∧
    sessionColl.count ≤ emptyTwo.capacity ∧ emptyTwo.count = 0 ∧
    (MQTT5_SerializeProperties sessionColl).1 = .MQTTSuccess ∧
    ((MQTT5_DeserializeProperties emptyTwo
        (bufOf (MQTT5_SerializeProperties sessionColl).2.1)
        (MQTT5_SerializeProperties sessionColl).2.2).1 = .MQTTSuccess ∧
     (MQTT5_DeserializeProperties emptyTwo
        (bufOf (MQTT5_SerializeProperties sessionColl).2.1)
        (MQTT5_SerializeProperties sessionColl).2.2).2.toList =
       sessionColl.toList) := by
  have hser : (MQTT5_SerializeProperties sessionColl).1 = .MQTTSuccess := by
    decide
  exact ⟨by decide, by decide, by decide, rfl, hser,
    C2_serialize_deserialize_roundtrip sessionColl emptyTwo (by decide)
      (by decide) (by decide) rfl hser⟩

theorem C7_witness :
    fullColl.count = fullColl.capacity ∧
    MQTT5_AddProperty fullColl ⟨MQTT5_PROPERTY_MAXIMUM_QOS, .byte 0⟩ =
      (.MQTTNoMemory, fullColl) :=
  ⟨rfl, C7_addProperty_full fullColl ⟨MQTT5_PROPERTY_MAXIMUM_QOS, .byte 0⟩ rfl⟩

theorem C8_witness :
    (1 : Nat) < 3 ∧
    isKnownPropertyType (readByte (bufOf [2, 0, 0]) 1) = false ∧
    deserLoop (bufOf [2, 0, 0]) 3 3 1 emptyProps =
      (.MQTTBadParameter, emptyProps) :=
  ⟨by decide, by decide,
   C8_unknown_identifier_aborts (bufOf [2, 0, 0]) 3 3 1 emptyProps
     (by decide) (by decide) (by decide)⟩

theorem C9_witness :
    (∀ i, i < oneMaxQos.count → (oneMaxQos.pProperties i).type ≠ 17) ∧
    MQTT5_GetProperty oneMaxQos 17 outRec =
      (.MQTTBadParameter, outRec, oneMaxQos) :=
  ⟨by decide,
   (C9_getProperty_notfound oneMaxQos 17 outRec (by decide)).1⟩

theorem C10_witness :
    emptyProps.count = 0 ∧
    MQTT5_DeserializeProperties oneMaxQos (bufOf [0]) 1 =
      (.MQTTSuccess, oneMaxQos) ∧
    MQTT5_DeserializeProperties emptyProps (bufOf [0]) 1 =
      (.MQTTSuccess, emptyProps) ∧
    (oneMaxQos.capacity = oneMaxQos.capacity ∧
     oneMaxQos.toList = oneMaxQos.toList ++ emptyProps.toList) := by
  have h1 : MQTT5_DeserializeProperties oneMaxQos (bufOf [0]) 1 =
      (.MQTTSuccess, oneMaxQos) := by
    simp [MQTT5_DeserializeProperties, MQTT5_DecodeVariableByteInteger,
      decodeStep, bufOf, deserLoop]
  have h2 : MQTT5_DeserializeProperties emptyProps (bufOf [0]) 1 =
      (.MQTTSuccess, emptyProps) := by
    simp [MQTT5_DeserializeProperties, MQTT5_DecodeVariableByteInteger,
      decodeStep, bufOf, deserLoop]
  have hc := C10_deserialize_appends oneMaxQos emptyProps oneMaxQos emptyProps
    (bufOf [0]) 1 rfl h1 h2
  exact ⟨rfl, h1, h2, hc.1, hc.2.1⟩

lemma encode_cont_bytes : ∀ v i, i + 1 < (encodeVariableByteInteger v).length →
    128 ≤ (encodeVariableByteInteger v).getD i 0 := by
  intro v
  induction v using Nat.strong_induction_on with
  | _ v ih =>
    intro i hi
    by_cases h : 128 ≤ v
    · rw [encode_ge h] at hi ⊢
      cases i with
      | zero => rw [List.getD_cons_zero]; omega
      | succ j =>
        rw [List.getD_cons_succ]
        exact ih (v / 128) (by omega) j (by simp at hi; omega)
    · rw [encode_lt (by omega)] at hi
      simp at hi
  
lemma encode_len_ge : ∀ k v, 128 ^ k ≤ v → k + 1 ≤ (encodeVariableByteInteger v).length := by
  intro k
  induction k with
  | zero =>
    intro v _
    have := encode_len_pos v
    omega
  | succ n ih =>
    intro v hv
    have h128 : 128 ≤ v := by
      have : (128 : Nat) ≤ 128 ^ (n + 1) := by
        have := Nat.one_le_two_pow (n := 7 * n)
        calc (128 : Nat) = 128 ^ 1 := by norm_num
          _ ≤ 128 ^ (n + 1) := Nat.pow_le_pow_right (by norm_num) (by omega)
      omega
    rw [encode_ge h128]
    simp only [List.length_cons]
    have hq : 128 ^ n ≤ v / 128 := by
      have : 128 ^ (n + 1) = 128 ^ n * 128 := by ring
      rw [this] at hv
      omega
    have := ih (v / 128) hq
    omega

lemma byteListOk_replicate (n : Nat) (h : n ≤ 65535) :
    byteListOk (List.replicate n 0) = true := by
  simp [byteListOk, List.all_eq_true, h]

lemma bigColl_wf : ∀ p ∈ bigColl.toList, propertyWf p = true := by
  intro p hp
  simp only [bigColl, MQTT5Properties.toList, List.mem_map] at hp
  obtain ⟨i, -, rfl⟩ := hp
  have h1 : isUtf8Type MQTT5_PROPERTY_CONTENT_TYPE = true := by decide
  have h2 := byteListOk_replicate 65534 (by norm_num)
  simp only [propertyWf, h1, h2, Bool.and_self]

lemma sum_map_const (n k : Nat) :
    ((List.range n).map (fun _ => k)).sum = n * k := by
  induction n with
  | zero => simp
  | succ m ihm => rw [List.range_succ]; simp [ihm]; ring

lemma getPropsSize_const (f : MQTT5Property) (n cap : Nat) :
    MQTT5_GetPropertiesSize ⟨fun _ => f, n, cap⟩ = n * propertySize f := by
  have h1 : MQTT5Properties.toList ⟨fun _ => f, n, cap⟩ =
      (List.range n).map (fun _ => f) := rfl
  rw [MQTT5_GetPropertiesSize, h1, List.map_map]
  have h2 : (propertySize ∘ (fun _ : Nat => f)) =
      (fun _ : Nat => propertySize f) := rfl
  rw [h2, sum_map_const]

lemma bigColl_size : MQTT5_GetPropertiesSize bigColl = 268439552 := by
  have hps : ∀ sVal : List Nat, sVal.length = 65534 →
      propertySize ⟨MQTT5_PROPERTY_CONTENT_TYPE, .utf8String sVal⟩ = 65537 := by
    intro sVal hs
    simp only [propertySize,
      (by decide : isByteType MQTT5_PROPERTY_CONTENT_TYPE = false),
      (by decide : isTwoByteType MQTT5_PROPERTY_CONTENT_TYPE = false),
      (by decide : isFourByteType MQTT5_PROPERTY_CONTENT_TYPE = false),
      (by decide : isUtf8Type MQTT5_PROPERTY_CONTENT_TYPE = true),
      MQTT5PropertyValue.utf8, hs, if_true, if_false,
      Bool.false_eq_true, Bool.true_eq_false, ite_true, ite_false]
  have h := getPropsSize_const
    ⟨MQTT5_PROPERTY_CONTENT_TYPE, .utf8String (List.replicate 65534 0)⟩
    4096 4096
  rw [hps (List.replicate 65534 0) (by rw [List.length_replicate])] at h
  exact h.trans (by norm_num)

/-- Claim C2 counterexample (closed): `bigColl` respects the shape
invariant and the per-entry length bounds, serializes successfully into an
empty collection's worth of bytes, yet deserializing the reported bytes
fails: its properties length (268439552) exceeds what a 1-4 byte VBI
prefix can encode, so the written prefix is a 5-byte sequence the decoder
rejects. -/
theorem C2_counterexample :
    (∀ p ∈ bigColl.toList, propertyWf p = true) ∧
    bigColl.count ≤ bigEmpty.capacity ∧ bigEmpty.count = 0 ∧
    (MQTT5_SerializeProperties bigColl).1 = .MQTTSuccess ∧
    (MQTT5_DeserializeProperties bigEmpty
      (bufOf (MQTT5_SerializeProperties bigColl).2.1)
      (MQTT5_SerializeProperties bigColl).2.2).1 ≠ .MQTTSuccess := by
  have hwf := bigColl_wf
  have hserLoop := serializeLoop_wf bigColl.toList hwf
  have hser : (MQTT5_SerializeProperties bigColl).1 = .MQTTSuccess := by
    simp only [MQTT5_SerializeProperties, hserLoop]
  have hmod : MQTT5_GetPropertiesSize bigColl % 4294967296 =
      MQTT5_GetPropertiesSize bigColl := by
    rw [bigColl_size]
  have hout : (MQTT5_SerializeProperties bigColl).2.1 =
      encodeVariableByteInteger (MQTT5_GetPropertiesSize bigColl) ++
      chunkBytes bigColl.toList := by
    simp only [MQTT5_SerializeProperties, hserLoop, hmod]
  have hn : (MQTT5_SerializeProperties bigColl).2.2 =
      (encodeVariableByteInteger (MQTT5_GetPropertiesSize bigColl) ++
       chunkBytes bigColl.toList).length := by
    simp only [MQTT5_SerializeProperties, hserLoop, hmod]
  have hlen5 : 5 ≤ (encodeVariableByteInteger (MQTT5_GetPropertiesSize bigColl)).length := by
    have := encode_len_ge 4 (MQTT5_GetPropertiesSize bigColl)
      (by rw [bigColl_size]; norm_num)
    omega
  have hcont : ∀ i, i < (encodeVariableByteInteger
      (MQTT5_GetPropertiesSize bigColl) ++ chunkBytes bigColl.toList).length →
      i < 4 →
      128 ≤ bufOf (encodeVariableByteInteger (MQTT5_GetPropertiesSize bigColl) ++
        chunkBytes bigColl.toList) i % 256 := by
    intro i _ hi4
    have hil : i < (encodeVariableByteInteger (MQTT5_GetPropertiesSize bigColl)).length := by
      omega
    have hbyte := encode_cont_bytes (MQTT5_GetPropertiesSize bigColl) i (by omega)
    have hlt : (encodeVariableByteInteger (MQTT5_GetPropertiesSize bigColl)).getD i 0 < 256 :=
      encode_getD_lt _ i hil
    rw [bufOf, List.getD_append _ _ _ _ hil]
    omega
  have hdec0 : (MQTT5_DecodeVariableByteInteger
      (bufOf (encodeVariableByteInteger (MQTT5_GetPropertiesSize bigColl) ++
        chunkBytes bigColl.toList))
      (encodeVariableByteInteger (MQTT5_GetPropertiesSize bigColl) ++
        chunkBytes bigColl.toList).length).1 = 0 :=
    decodeStep_no_terminator _ _ hcont
      ((encodeVariableByteInteger (MQTT5_GetPropertiesSize bigColl) ++
        chunkBytes bigColl.toList).length) 0 1 0 (by omega) (by omega)
  refine ⟨hwf, by decide, rfl, hser, ?_⟩
  rw [hout, hn, MQTT5_DeserializeProperties]
  rw [if_pos hdec0]
  decide
